import Mathlib

/-!
Verification of the `ticktac-project/extra-tools` scripts.

The development shallowly embeds the three Python tools:
* `benchtools/make_table.py` — the table generator's expression evaluator
  (`evaluate_value`, `evaluate_divide`, `evaluate_round`, `evaluate_percent`,
  `evaluate_readable`, `evaluate`) and result merging (`merge_prog_results`,
  `merge_results`);
* `benchtools/run_benchmarks.py` — `extract_stats` and the skip-on-timeout
  loop of `run_benchmark`;
* `dot2dot/dot2dot.py` — `verify_cond`, `instantiate_format`, `change_values`
  and `apply_changes`.

Python numbers are idealised: `int` as `ℤ` and `float` as an exact `ℚ`.
Python dictionaries are association lists (`List (String × _)`); JSON
expression trees are the inductive `J`.  Fallible evaluation returns
`Except Err`, with a distinct error constructor for each failure mode of the
source (a raised `UnknownValueException`, a `sys.exit` after an error
message, a failing `assert`, a Python `TypeError`/`KeyError`/`ValueError`).
-/

set_option maxHeartbeats 1000000

namespace MakeTable

/-- A Python runtime value stored in a statistics dictionary. -/
inductive PyVal where
  | int (n : ℤ)
  | float (q : ℚ)
  | str (s : String)
deriving DecidableEq

/-- A JSON value, as read from the table-description file. -/
inductive J where
  | jInt (n : ℤ)
  | jFloat (q : ℚ)
  | jStr (s : String)
  | jObj (fields : List (String × J))

/-- Failure modes of expression evaluation in `make_table.py`. -/
inductive Err where
  | unknownValue (name : String)
  | fatal (msg : String)
  | assertFail
  | typeError
  | keyError
  | valueError
  | fuelOut
deriving DecidableEq

/-- First-match association-list lookup, the model of Python `dict` access. -/
def alookup {α : Type} (k : String) : List (String × α) → Option α
  | [] => none
  | (k', v) :: r => if k' = k then some v else alookup k r

mutual
/-- Size of a JSON tree, used as evaluation fuel. -/
def sizeJ : J → Nat
  | .jInt _ => 1
  | .jFloat _ => 1
  | .jStr _ => 1
  | .jObj l => sizeL l + 1

/-- Size of a JSON object's field list. -/
def sizeL : List (String × J) → Nat
  | [] => 0
  | (_, v) :: r => sizeJ v + sizeL r + 1
end

/-- Digits-to-number helper for the model of Python `int(...)` on strings. -/
def digitsToNat (l : List Char) : Nat :=
  l.foldl (fun a c => 10 * a + (c.toNat - 48)) 0

/-- Model of Python `int(s)` on a string: optional sign and decimal digits. -/
def pyParseInt (s : String) : Option ℤ :=
  let t := s.trim.toList
  let core : List Char × ℤ :=
    match t with
    | '-' :: r => (r, -1)
    | '+' :: r => (r, 1)
    | l => (l, 1)
  if !core.1.isEmpty && core.1.all Char.isDigit then
    some (core.2 * (digitsToNat core.1 : ℤ))
  else none

/-- Model of Python `float(s)` on a string: sign, digits, optional fraction. -/
def pyParseFloat (s : String) : Option ℚ :=
  let t := s.trim.toList
  let core : List Char × ℚ :=
    match t with
    | '-' :: r => (r, -1)
    | '+' :: r => (r, 1)
    | l => (l, 1)
  match core.1.splitOn '.' with
  | [ip] =>
    if !ip.isEmpty && ip.all Char.isDigit then
      some (core.2 * (digitsToNat ip : ℚ))
    else none
  | [ip, fp] =>
    if !(ip.isEmpty && fp.isEmpty) && ip.all Char.isDigit && fp.all Char.isDigit then
      some (core.2 * ((digitsToNat ip : ℚ) + (digitsToNat fp : ℚ) / (10 : ℚ) ^ fp.length))
    else none
  | _ => none

/-- Truncation toward zero, the model of Python `int(...)` on a float. -/
def ratTrunc (q : ℚ) : ℤ := if 0 ≤ q then ⌊q⌋ else ⌈q⌉

/-- The numeric content of a value (`none` for strings). -/
def pyQ : PyVal → Option ℚ
  | .int n => some (n : ℚ)
  | .float q => some q
  | .str _ => none

/-- Model of Python `x == 0` on a statistics value. -/
def pyEqZero : PyVal → Bool
  | .int n => n = 0
  | .float q => q = 0
  | .str _ => false

/-- Model of Python `int(value)` on a runtime value. -/
def pyValInt : PyVal → Except Err ℤ
  | .int n => .ok n
  | .float q => .ok (ratTrunc q)
  | .str s =>
    match pyParseInt s with
    | some n => .ok n
    | none => .error .valueError

/-- Model of Python `float(value)` on a runtime value. -/
def pyValFloat : PyVal → Except Err ℚ
  | .int n => .ok (n : ℚ)
  | .float q => .ok q
  | .str s =>
    match pyParseFloat s with
    | some q => .ok q
    | none => .error .valueError

/-- Model of Python true division `a / b` (the divisor is checked beforehand
by the caller, as in the source). -/
def pyDiv (a b : PyVal) : Except Err PyVal :=
  match pyQ a, pyQ b with
  | some x, some y => .ok (.float (x / y))
  | _, _ => .error .typeError

/-- `evaluate_value` of `make_table.py`: look up `expr["name"]` in the stats
dictionary, optionally coercing via `int(...)` or `float(...)`. -/
def evaluate_value (stats : List (String × PyVal)) (body : J) : Except Err PyVal :=
  match body with
  | .jObj l =>
    match alookup "name" l with
    | none => .error .keyError
    | some nv =>
      match nv with
      | .jStr value_name =>
        match alookup value_name stats with
        | none => .error (.unknownValue value_name)
        | some value =>
          match alookup "type" l with
          | none => .ok value
          | some (.jStr "int") =>
            match pyValInt value with
            | .ok n => .ok (.int n)
            | .error e => .error e
          | some (.jStr "float") =>
            match pyValFloat value with
            | .ok q => .ok (.float q)
            | .error e => .error e
          | some _ => .error (.fatal "unknown type name")
      | _ => .error (.unknownValue "non-string name")
  | _ => .error .typeError

/-- The `try: divisor = int(expr["by"]) except (ValueError, TypeError):
divisor = evaluate(stats, expr["by"])` step of `evaluate_divide`. -/
def divisorOfBy (ev : J → Except Err PyVal) : J → Except Err PyVal
  | .jInt n => .ok (.int n)
  | .jFloat q => .ok (.int (ratTrunc q))
  | .jStr s =>
    match pyParseInt s with
    | some n => .ok (.int n)
    | none => ev (.jStr s)
  | .jObj l => ev (.jObj l)

/-- One iteration of the `for e in expr` loop of `evaluate_divide`:
the `"by"` key yields the divisor, any other key `e` re-evaluates
`{e: expr[e]}` as the value. -/
def divEntry (ev : J → Except Err PyVal) (acc : Option PyVal × Option PyVal)
    (k : String) (v : J) : Except Err (Option PyVal × Option PyVal) :=
  if k = "by" then
    match divisorOfBy ev v with
    | .ok d => .ok (some d, acc.2)
    | .error e => .error e
  else
    match ev (.jObj [(k, v)]) with
    | .ok w => .ok (acc.1, some w)
    | .error e => .error e

/-- `evaluate_divide` of `make_table.py`. -/
def evaluate_divide (ev : J → Except Err PyVal) (body : J) : Except Err PyVal :=
  match body with
  | .jObj [(k1, v1), (k2, v2)] =>
    match divEntry ev (none, none) k1 v1 with
    | .error e => .error e
    | .ok acc1 =>
      match divEntry ev acc1 k2 v2 with
      | .error e => .error e
      | .ok acc2 =>
        match acc2.1 with
        | none => .error (.fatal "missing by")
        | some d =>
          if pyEqZero d then .error (.fatal "division by 0")
          else
            match acc2.2 with
            | none => .error (.fatal "missing value to divide")
            | some w => pyDiv w d
  | .jObj _ => .error .assertFail
  | _ => .error .typeError

/-- Model of Python `int(expr["decimal"])` on a JSON value. -/
def intOfJ : J → Except Err ℤ
  | .jInt n => .ok n
  | .jFloat q => .ok (ratTrunc q)
  | .jStr s =>
    match pyParseInt s with
    | some n => .ok n
    | none => .error .valueError
  | .jObj _ => .error .typeError

/-- One iteration of the `for e in expr` loop of `evaluate_round`. -/
def roundEntry (ev : J → Except Err PyVal) (acc : Option ℤ × Option PyVal)
    (k : String) (v : J) : Except Err (Option ℤ × Option PyVal) :=
  if k = "decimal" then
    match intOfJ v with
    | .ok n => .ok (some n, acc.2)
    | .error e => .error e
  else
    match ev (.jObj [(k, v)]) with
    | .ok w => .ok (acc.1, some w)
    | .error e => .error e

/-- `evaluate_round` of `make_table.py`:
`factor = pow(10, decimal); floor(value * factor) / factor`. -/
def evaluate_round (ev : J → Except Err PyVal) (body : J) : Except Err PyVal :=
  match body with
  | .jObj [(k1, v1), (k2, v2)] =>
    match roundEntry ev (none, none) k1 v1 with
    | .error e => .error e
    | .ok acc1 =>
      match roundEntry ev acc1 k2 v2 with
      | .error e => .error e
      | .ok acc2 =>
        match acc2.1 with
        | none => .error (.fatal "missing decimal")
        | some d =>
          match acc2.2 with
          | none => .error (.fatal "missing value to round")
          | some w =>
            match pyQ w with
            | none => .error .typeError
            | some q => .ok (.float ((⌊q * (10 : ℚ) ^ d⌋ : ℚ) / (10 : ℚ) ^ d))
  | .jObj _ => .error .assertFail
  | _ => .error .typeError

/-- One iteration of the `for e in expr` loop of `evaluate_percent`:
the `"num"` key is the numerator, any other key the denominator. -/
def percEntry (ev : J → Except Err PyVal) (acc : Option PyVal × Option PyVal)
    (k : String) (v : J) : Except Err (Option PyVal × Option PyVal) :=
  match ev v with
  | .error e => .error e
  | .ok w => if k = "num" then .ok (some w, acc.2) else .ok (acc.1, some w)

/-- `evaluate_percent` of `make_table.py`: `0/0` is defined as `100.00`, any
other zero denominator fails the `assert num == 0`, and otherwise the result
is `floor((100.0 * num / den) * 100) / 100`. -/
def evaluate_percent (ev : J → Except Err PyVal) (body : J) : Except Err PyVal :=
  match body with
  | .jObj [(k1, v1), (k2, v2)] =>
    match percEntry ev (none, none) k1 v1 with
    | .error e => .error e
    | .ok acc1 =>
      match percEntry ev acc1 k2 v2 with
      | .error e => .error e
      | .ok acc2 =>
        match acc2.2 with
        | none => .error (.fatal "missing den")
        | some den =>
          match acc2.1 with
          | none => .error (.fatal "missing num")
          | some num =>
            if pyEqZero den then
              if pyEqZero num then .ok (.float 100) else .error .assertFail
            else
              match pyQ num, pyQ den with
              | some qn, some qd =>
                .ok (.float ((⌊(100 * qn / qd) * 100⌋ : ℚ) / 100))
              | _, _ => .error .typeError
  | .jObj _ => .error .assertFail
  | _ => .error .typeError

/-- Idealised rendering of a Python float whose value is the exact rational
`q` (used by `f"{value}"` when the value is a float). -/
def fmtFloat (q : ℚ) : String :=
  match (List.range 40).find? (fun k => (q * (10 : ℚ) ^ k).den == 1) with
  | some 0 => toString q.num ++ ".0"
  | some k =>
    let m := (q * (10 : ℚ) ^ k).num
    let s := toString m.natAbs
    let s := if s.length ≤ k then String.mk (List.replicate (k + 1 - s.length) '0') ++ s else s
    let i := s.length - k
    (if m < 0 then "-" else "") ++ String.mk (s.toList.take i) ++ "." ++ String.mk (s.toList.drop i)
  | none => toString q.num ++ "/" ++ toString q.den

/-- Model of Python `f"{value}"` on a statistics value. -/
def fmtPy : PyVal → String
  | .int n => toString n
  | .float q => fmtFloat q
  | .str s => s

/-- Round half to even, the tie rule of C's (and hence Python's) `"%.1f"`. -/
def roundHalfEven (x : ℚ) : ℤ :=
  let f := ⌊x⌋
  let r := x - (f : ℚ)
  if r < 1 / 2 then f
  else if 1 / 2 < r then f + 1
  else if f % 2 = 0 then f else f + 1

/-- Model of Python `"%.1f" % q` for an exact rational float `q`. -/
def fmtOneDec (q : ℚ) : String :=
  let n := roundHalfEven (q * 10)
  (if n < 0 then "-" else "") ++ toString (n.natAbs / 10) ++ "." ++ toString (n.natAbs % 10)

/-- `evaluate_readable` of `make_table.py`: a value below `1000` is printed
bare, otherwise it is scaled and given a `k` / `M` / `G` suffix with one
decimal place. -/
def evaluate_readable (stats : List (String × PyVal)) (body : J) : Except Err PyVal :=
  match body with
  | .jObj [(k, v)] =>
    if k = "value" then
      match evaluate_value stats v with
      | .error e => .error e
      | .ok value =>
        match pyQ value with
        | none => .error .typeError
        | some q =>
          if q < 1000 then .ok (.str (fmtPy value))
          else if 1000000000 ≤ q then .ok (.str (fmtOneDec (q / 1000000000) ++ " G"))
          else if 1000000 ≤ q then .ok (.str (fmtOneDec (q / 1000000) ++ " M"))
          else .ok (.str (fmtOneDec (q / 1000) ++ " k"))
    else .error (.fatal "missing value in readable")
  | .jObj _ => .error .assertFail
  | _ => .error .typeError

/-- `evaluate` of `make_table.py`, with explicit fuel for the recursion.
The dispatch order (`value`, `divide`, `round`, `percent`, `readable`)
follows the source. -/
def evaluateF : Nat → List (String × PyVal) → J → Except Err PyVal
  | 0, _, _ => .error .fuelOut
  | n + 1, stats, e =>
    match e with
    | .jObj fields =>
      match alookup "value" fields with
      | some b => evaluate_value stats b
      | none =>
        match alookup "divide" fields with
        | some b => evaluate_divide (evaluateF n stats) b
        | none =>
          match alookup "round" fields with
          | some b => evaluate_round (evaluateF n stats) b
          | none =>
            match alookup "percent" fields with
            | some b => evaluate_percent (evaluateF n stats) b
            | none =>
              match alookup "readable" fields with
              | some b => evaluate_readable stats b
              | none => .error (.fatal "unexpected expression")
    | _ => .error .typeError

/-- `evaluate` of `make_table.py`: every recursive call strictly decreases
the tree size, so `sizeJ e` steps of fuel always suffice. -/
def evaluate (stats : List (String × PyVal)) (e : J) : Except Err PyVal :=
  evaluateF (sizeJ e) stats e

theorem sizeJ_pos (e : J) : 1 ≤ sizeJ e := by
  cases e <;> simp [sizeJ]

theorem alookup_sizeL {l : List (String × J)} {k : String} {v : J}
    (h : alookup k l = some v) : sizeJ v + 1 ≤ sizeL l := by
  induction l with
  | nil => simp [alookup] at h
  | cons hd tl ih =>
    obtain ⟨k', w⟩ := hd
    by_cases hk : k' = k
    · simp only [alookup, if_pos hk, Option.some.injEq] at h
      subst h
      simp [sizeL]
    · simp only [alookup, if_neg hk] at h
      have := ih h
      simp only [sizeL]
      omega

theorem sizeJ_pair (k : String) (v : J) : sizeJ (J.jObj [(k, v)]) = sizeJ v + 2 := by
  simp [sizeJ, sizeL]

theorem divisorOfBy_congr {ev1 ev2 : J → Except Err PyVal} (v : J)
    (h : ∀ x, sizeJ x ≤ sizeJ v → ev1 x = ev2 x) :
    divisorOfBy ev1 v = divisorOfBy ev2 v := by
  cases v with
  | jInt n => rfl
  | jFloat q => rfl
  | jStr s =>
    simp only [divisorOfBy]
    cases pyParseInt s with
    | some n => rfl
    | none => exact h _ le_rfl
  | jObj l => exact h _ le_rfl

theorem divEntry_congr {ev1 ev2 : J → Except Err PyVal}
    (acc : Option PyVal × Option PyVal) (k : String) (v : J)
    (h : ∀ x, sizeJ x ≤ sizeJ v + 2 → ev1 x = ev2 x) :
    divEntry ev1 acc k v = divEntry ev2 acc k v := by
  unfold divEntry
  by_cases hk : k = "by"
  · simp only [if_pos hk]
    rw [divisorOfBy_congr v (fun x hx => h x (by omega))]
  · simp only [if_neg hk]
    rw [h (.jObj [(k, v)]) (by rw [sizeJ_pair])]

theorem evaluate_divide_congr {ev1 ev2 : J → Except Err PyVal} (body : J)
    (h : ∀ x, sizeJ x ≤ sizeJ body → ev1 x = ev2 x) :
    evaluate_divide ev1 body = evaluate_divide ev2 body := by
  cases body with
  | jInt n => rfl
  | jFloat q => rfl
  | jStr s => rfl
  | jObj l =>
    rcases l with _ | ⟨⟨k1, v1⟩, _ | ⟨⟨k2, v2⟩, _ | ⟨p3, rest⟩⟩⟩
    · rfl
    · rfl
    · have hb1 : sizeJ v1 + 2 ≤ sizeJ (J.jObj [(k1, v1), (k2, v2)]) := by
        simp only [sizeJ, sizeL]; omega
      have hb2 : sizeJ v2 + 2 ≤ sizeJ (J.jObj [(k1, v1), (k2, v2)]) := by
        have := sizeJ_pos v1
        simp only [sizeJ, sizeL]; omega
      simp only [evaluate_divide]
      rw [divEntry_congr (none, none) k1 v1 (fun x hx => h x (by omega))]
      cases hA : divEntry ev2 (none, none) k1 v1 with
      | error e => rfl
      | ok acc1 =>
        dsimp only
        rw [divEntry_congr acc1 k2 v2 (fun x hx => h x (by omega))]
    · rfl

theorem roundEntry_congr {ev1 ev2 : J → Except Err PyVal}
    (acc : Option ℤ × Option PyVal) (k : String) (v : J)
    (h : ∀ x, sizeJ x ≤ sizeJ v + 2 → ev1 x = ev2 x) :
    roundEntry ev1 acc k v = roundEntry ev2 acc k v := by
  unfold roundEntry
  by_cases hk : k = "decimal"
  · simp only [if_pos hk]
  · simp only [if_neg hk]
    rw [h (.jObj [(k, v)]) (by rw [sizeJ_pair])]

theorem evaluate_round_congr {ev1 ev2 : J → Except Err PyVal} (body : J)
    (h : ∀ x, sizeJ x ≤ sizeJ body → ev1 x = ev2 x) :
    evaluate_round ev1 body = evaluate_round ev2 body := by
  cases body with
  | jInt n => rfl
  | jFloat q => rfl
  | jStr s => rfl
  | jObj l =>
    rcases l with _ | ⟨⟨k1, v1⟩, _ | ⟨⟨k2, v2⟩, _ | ⟨p3, rest⟩⟩⟩
    · rfl
    · rfl
    · have hb1 : sizeJ v1 + 2 ≤ sizeJ (J.jObj [(k1, v1), (k2, v2)]) := by
        simp only [sizeJ, sizeL]; omega
      have hb2 : sizeJ v2 + 2 ≤ sizeJ (J.jObj [(k1, v1), (k2, v2)]) := by
        have := sizeJ_pos v1
        simp only [sizeJ, sizeL]; omega
      simp only [evaluate_round]
      rw [roundEntry_congr (none, none) k1 v1 (fun x hx => h x (by omega))]
      cases hA : roundEntry ev2 (none, none) k1 v1 with
      | error e => rfl
      | ok acc1 =>
        dsimp only
        rw [roundEntry_congr acc1 k2 v2 (fun x hx => h x (by omega))]
    · rfl

theorem percEntry_congr {ev1 ev2 : J → Except Err PyVal}
    (acc : Option PyVal × Option PyVal) (k : String) (v : J)
    (h : ∀ x, sizeJ x ≤ sizeJ v → ev1 x = ev2 x) :
    percEntry ev1 acc k v = percEntry ev2 acc k v := by
  unfold percEntry
  rw [h v le_rfl]

theorem evaluate_percent_congr {ev1 ev2 : J → Except Err PyVal} (body : J)
    (h : ∀ x, sizeJ x ≤ sizeJ body → ev1 x = ev2 x) :
    evaluate_percent ev1 body = evaluate_percent ev2 body := by
  cases body with
  | jInt n => rfl
  | jFloat q => rfl
  | jStr s => rfl
  | jObj l =>
    rcases l with _ | ⟨⟨k1, v1⟩, _ | ⟨⟨k2, v2⟩, _ | ⟨p3, rest⟩⟩⟩
    · rfl
    · rfl
    · have hb1 : sizeJ v1 ≤ sizeJ (J.jObj [(k1, v1), (k2, v2)]) := by
        simp only [sizeJ, sizeL]; omega
      have hb2 : sizeJ v2 ≤ sizeJ (J.jObj [(k1, v1), (k2, v2)]) := by
        simp only [sizeJ, sizeL]; omega
      simp only [evaluate_percent]
      rw [percEntry_congr (none, none) k1 v1 (fun x hx => h x (by omega))]
      cases hA : percEntry ev2 (none, none) k1 v1 with
      | error e => rfl
      | ok acc1 =>
        dsimp only
        rw [percEntry_congr acc1 k2 v2 (fun x hx => h x (by omega))]
    · rfl

/-- Evaluation with any sufficient amount of fuel agrees with `evaluate`. -/
theorem evaluateF_eq (n : Nat) : ∀ (stats : List (String × PyVal)) (e : J),
    sizeJ e ≤ n → evaluateF n stats e = evaluate stats e := by
  induction n using Nat.strong_induction_on with
  | _ n ih =>
    intro stats e hle
    have h1 : 1 ≤ sizeJ e := sizeJ_pos e
    obtain ⟨m, rfl⟩ : ∃ m, n = m + 1 := ⟨n - 1, by omega⟩
    cases e with
    | jInt k => rfl
    | jFloat q => rfl
    | jStr s => rfl
    | jObj fields =>
      have hsz : sizeJ (J.jObj fields) = sizeL fields + 1 := by simp [sizeJ]
      rw [hsz] at hle
      show evaluateF (m + 1) stats (J.jObj fields) =
        evaluateF (sizeL fields + 1) stats (J.jObj fields)
      simp only [evaluateF]
      cases hv : alookup "value" fields with
      | some b => rfl
      | none =>
        simp only [hv]
        cases hd : alookup "divide" fields with
        | some b =>
          simp only [hd]
          have hb := alookup_sizeL hd
          apply evaluate_divide_congr
          intro x hx
          rw [ih m (by omega) stats x (by omega),
            ih (sizeL fields) (by omega) stats x (by omega)]
        | none =>
          simp only [hd]
          cases hr : alookup "round" fields with
          | some b =>
            simp only [hr]
            have hb := alookup_sizeL hr
            apply evaluate_round_congr
            intro x hx
            rw [ih m (by omega) stats x (by omega),
              ih (sizeL fields) (by omega) stats x (by omega)]
          | none =>
            simp only [hr]
            cases hp : alookup "percent" fields with
            | some b =>
              simp only [hp]
              have hb := alookup_sizeL hp
              apply evaluate_percent_congr
              intro x hx
              rw [ih m (by omega) stats x (by omega),
                ih (sizeL fields) (by omega) stats x (by omega)]
            | none =>
              simp only [hp]

/-- Evaluating `{"divide": body}` dispatches to `evaluate_divide` with the
top-level evaluator as callback. -/
theorem evaluate_divideExpr (stats : List (String × PyVal)) (body : J) :
    evaluate stats (J.jObj [("divide", body)]) =
      evaluate_divide (evaluate stats) body := by
  have step : evaluate stats (J.jObj [("divide", body)]) =
      evaluate_divide (evaluateF (sizeL [("divide", body)]) stats) body := rfl
  rw [step]
  apply evaluate_divide_congr
  intro x hx
  apply evaluateF_eq
  have hs : sizeL [("divide", body)] = sizeJ body + 1 := by simp [sizeL]
  omega

/-- Evaluating `{"round": body}` dispatches to `evaluate_round`. -/
theorem evaluate_roundExpr (stats : List (String × PyVal)) (body : J) :
    evaluate stats (J.jObj [("round", body)]) =
      evaluate_round (evaluate stats) body := by
  have step : evaluate stats (J.jObj [("round", body)]) =
      evaluate_round (evaluateF (sizeL [("round", body)]) stats) body := rfl
  rw [step]
  apply evaluate_round_congr
  intro x hx
  apply evaluateF_eq
  have hs : sizeL [("round", body)] = sizeJ body + 1 := by simp [sizeL]
  omega

/-- Evaluating `{"percent": body}` dispatches to `evaluate_percent`. -/
theorem evaluate_percentExpr (stats : List (String × PyVal)) (body : J) :
    evaluate stats (J.jObj [("percent", body)]) =
      evaluate_percent (evaluate stats) body := by
  have step : evaluate stats (J.jObj [("percent", body)]) =
      evaluate_percent (evaluateF (sizeL [("percent", body)]) stats) body := rfl
  rw [step]
  apply evaluate_percent_congr
  intro x hx
  apply evaluateF_eq
  have hs : sizeL [("percent", body)] = sizeJ body + 1 := by simp [sizeL]
  omega

/-- Evaluating `{"readable": body}` dispatches to `evaluate_readable`. -/
theorem evaluate_readableExpr (stats : List (String × PyVal)) (body : J) :
    evaluate stats (J.jObj [("readable", body)]) =
      evaluate_readable stats body := by
  rfl

/-- Evaluating `{"value": body}` dispatches to `evaluate_value`. -/
theorem evaluate_valueExpr (stats : List (String × PyVal)) (body : J) :
    evaluate stats (J.jObj [("value", body)]) =
      evaluate_value stats body := by
  rfl

theorem pyEqZero_iff {v : PyVal} {q : ℚ} (h : pyQ v = some q) :
    pyEqZero v = true ↔ q = 0 := by
  cases v with
  | int n =>
    simp only [pyQ, Option.some.injEq] at h
    subst h
    simp [pyEqZero]
  | float x =>
    simp only [pyQ, Option.some.injEq] at h
    subst h
    simp [pyEqZero]
  | str s => simp [pyQ] at h

/-- A `percent` expression with numerator `en` and denominator `ed`. -/
def percentExpr (en ed : J) : J :=
  .jObj [("percent", .jObj [("num", en), ("den", ed)])]

/-- Evaluation of a `percent` expression, given the values of its operands. -/
theorem evaluate_percent_numden (stats : List (String × PyVal)) (en ed : J)
    (nv dv : PyVal) (hn : evaluate stats en = .ok nv)
    (hd : evaluate stats ed = .ok dv) :
    evaluate stats (percentExpr en ed) =
      if pyEqZero dv then
        if pyEqZero nv then .ok (.float 100) else .error .assertFail
      else
        match pyQ nv, pyQ dv with
        | some qn, some qd => .ok (.float ((⌊(100 * qn / qd) * 100⌋ : ℚ) / 100))
        | _, _ => .error .typeError := by
  have h0 : percentExpr en ed = J.jObj [("percent", J.jObj [("num", en), ("den", ed)])] := rfl
  rw [h0, evaluate_percentExpr]
  simp only [evaluate_percent, percEntry, hn, hd, String.reduceEq, reduceIte]

/-- C1: for every statistics mapping and percent expression, `0/0` evaluates
to exactly `100.00`; a nonzero denominator gives
`floor((100.0 * num / den) * 100) / 100`; and a zero denominator with a
nonzero numerator is an error (the `assert num == 0` fails). -/
theorem percent_evaluation (stats : List (String × PyVal)) (en ed : J)
    (nv dv : PyVal) (qn qd : ℚ)
    (hn : evaluate stats en = .ok nv) (hd : evaluate stats ed = .ok dv)
    (hqn : pyQ nv = some qn) (hqd : pyQ dv = some qd) :
    (qn = 0 ∧ qd = 0 → evaluate stats (percentExpr en ed) = .ok (.float 100)) ∧
    (qd ≠ 0 → evaluate stats (percentExpr en ed) =
      .ok (.float ((⌊(100 * qn / qd) * 100⌋ : ℚ) / 100))) ∧
    (qd = 0 → qn ≠ 0 →
      ∃ err, evaluate stats (percentExpr en ed) = .error err) := by
  have key := evaluate_percent_numden stats en ed nv dv hn hd
  refine ⟨?_, ?_, ?_⟩
  · rintro ⟨h1, h2⟩
    rw [key, if_pos (((pyEqZero_iff hqd).2 h2)), if_pos (((pyEqZero_iff hqn).2 h1))]
  · intro h2
    have hz : pyEqZero dv = false := by
      rcases hb : pyEqZero dv with _ | _
      · rfl
      · exact absurd ((pyEqZero_iff hqd).1 hb) h2
    rw [key, hz]
    simp only [Bool.false_eq_true, if_false, hqn, hqd]
  · intro h2 h1
    have hz : pyEqZero nv = false := by
      rcases hb : pyEqZero nv with _ | _
      · rfl
      · exact absurd ((pyEqZero_iff hqn).1 hb) h1
    refine ⟨.assertFail, ?_⟩
    rw [key, if_pos ((pyEqZero_iff hqd).2 h2), hz]
    simp

/-- C9: a `round` expression truncates its operand's value to `d` decimal
places with `floor`, i.e. yields `floor(v * 10^d) / 10^d`. -/
theorem round_evaluation (stats : List (String × PyVal)) (k : String) (v : J)
    (d : ℤ) (w : PyVal) (qw : ℚ) (hk : k ≠ "decimal")
    (body : List (String × J))
    (hbody : body = [(k, v), ("decimal", .jInt d)] ∨
      body = [("decimal", .jInt d), (k, v)])
    (hw : evaluate stats (.jObj [(k, v)]) = .ok w) (hqw : pyQ w = some qw) :
    evaluate stats (.jObj [("round", .jObj body)]) =
      .ok (.float ((⌊qw * (10 : ℚ) ^ d⌋ : ℚ) / (10 : ℚ) ^ d)) := by
  rcases hbody with rfl | rfl <;>
    rw [evaluate_roundExpr] <;>
    simp only [evaluate_round, roundEntry, intOfJ, hw, hqw, if_neg hk,
      String.reduceEq, reduceIte]

theorem pyEqZero_int (n : ℤ) : pyEqZero (.int n) = decide (n = 0) := rfl

theorem pyQ_int (n : ℤ) : pyQ (.int n) = some (n : ℚ) := rfl

/-- C3: a `divide` expression with a nonzero integer-literal or nested-
expression divisor evaluates to the exact quotient; a missing `by` operand,
a missing value operand, or a zero divisor is an error. -/
theorem divide_evaluation (stats : List (String × PyVal)) :
    (∀ (k : String) (v : J) (body : List (String × J)) (d : ℤ) (w : PyVal)
       (qw : ℚ), k ≠ "by" →
       (body = [(k, v), ("by", .jInt d)] ∨ body = [("by", .jInt d), (k, v)]) →
       d ≠ 0 →
       evaluate stats (.jObj [(k, v)]) = .ok w → pyQ w = some qw →
       evaluate stats (.jObj [("divide", .jObj body)]) =
         .ok (.float (qw / (d : ℚ)))) ∧
    (∀ (k : String) (v : J) (body : List (String × J))
       (bl : List (String × J)) (u w : PyVal) (qu qw : ℚ), k ≠ "by" →
       (body = [(k, v), ("by", .jObj bl)] ∨
         body = [("by", .jObj bl), (k, v)]) →
       evaluate stats (.jObj bl) = .ok u → pyQ u = some qu → qu ≠ 0 →
       evaluate stats (.jObj [(k, v)]) = .ok w → pyQ w = some qw →
       evaluate stats (.jObj [("divide", .jObj body)]) =
         .ok (.float (qw / qu))) ∧
    (∀ (k1 : String) (v1 : J) (k2 : String) (v2 : J), k1 ≠ "by" → k2 ≠ "by" →
       ∃ err, evaluate stats
         (.jObj [("divide", .jObj [(k1, v1), (k2, v2)])]) = .error err) ∧
    (∀ (v1 v2 : J),
       ∃ err, evaluate stats
         (.jObj [("divide", .jObj [("by", v1), ("by", v2)])]) = .error err) ∧
    (∀ (k : String) (v : J) (body : List (String × J)), k ≠ "by" →
       (body = [(k, v), ("by", .jInt 0)] ∨ body = [("by", .jInt 0), (k, v)]) →
       ∃ err, evaluate stats
         (.jObj [("divide", .jObj body)]) = .error err) := by
  refine ⟨?_, ?_, ?_, ?_, ?_⟩
  · intro k v body d w qw hk hbody hd hw hqw
    have hz : pyEqZero (.int d) = false := by
      rw [pyEqZero_int]
      simp [hd]
    rcases hbody with rfl | rfl <;>
      rw [evaluate_divideExpr] <;>
      simp [evaluate_divide, divEntry, divisorOfBy, hw, hz, if_neg hk,
        pyDiv, hqw, pyQ_int]
  · intro k v body bl u w qu qw hk hbody hu hqu hqu0 hw hqw
    have hz : pyEqZero u = false := by
      rcases hb : pyEqZero u with _ | _
      · rfl
      · exact absurd ((pyEqZero_iff hqu).1 hb) hqu0
    rcases hbody with rfl | rfl <;>
      rw [evaluate_divideExpr] <;>
      simp [evaluate_divide, divEntry, divisorOfBy, hw, hu, hz, if_neg hk,
        pyDiv, hqw, hqu]
  · intro k1 v1 k2 v2 hk1 hk2
    rw [evaluate_divideExpr]
    cases h1 : evaluate stats (.jObj [(k1, v1)]) with
    | error e =>
      exact ⟨e, by simp [evaluate_divide, divEntry, h1, if_neg hk1]⟩
    | ok w1 =>
      cases h2 : evaluate stats (.jObj [(k2, v2)]) with
      | error e =>
        exact ⟨e, by simp [evaluate_divide, divEntry, h1, h2, if_neg hk1,
          if_neg hk2]⟩
      | ok w2 =>
        exact ⟨.fatal "missing by", by simp [evaluate_divide, divEntry, h1,
          h2, if_neg hk1, if_neg hk2]⟩
  · intro v1 v2
    rw [evaluate_divideExpr]
    cases h1 : divisorOfBy (evaluate stats) v1 with
    | error e => exact ⟨e, by simp [evaluate_divide, divEntry, h1]⟩
    | ok d1 =>
      cases h2 : divisorOfBy (evaluate stats) v2 with
      | error e => exact ⟨e, by simp [evaluate_divide, divEntry, h1, h2]⟩
      | ok d2 =>
        rcases hz : pyEqZero d2 with _ | _
        · exact ⟨.fatal "missing value to divide",
            by simp [evaluate_divide, divEntry, h1, h2, hz]⟩
        · exact ⟨.fatal "division by 0",
            by simp [evaluate_divide, divEntry, h1, h2, hz]⟩
  · intro k v body hk hbody
    have hz : pyEqZero (.int 0) = true := rfl
    rcases hbody with rfl | rfl
    · rw [evaluate_divideExpr]
      cases h1 : evaluate stats (.jObj [(k, v)]) with
      | error e =>
        refine ⟨e, ?_⟩
        simp [evaluate_divide, divEntry, divisorOfBy, h1, if_neg hk]
      | ok w =>
        refine ⟨.fatal "division by 0", ?_⟩
        simp [evaluate_divide, divEntry, divisorOfBy, h1, hz, if_neg hk]
    · rw [evaluate_divideExpr]
      cases h1 : evaluate stats (.jObj [(k, v)]) with
      | error e =>
        refine ⟨e, ?_⟩
        simp [evaluate_divide, divEntry, divisorOfBy, h1, if_neg hk]
      | ok w =>
        refine ⟨.fatal "division by 0", ?_⟩
        simp [evaluate_divide, divEntry, divisorOfBy, h1, hz, if_neg hk]

/-- Witness for `percent_evaluation`: with numerator and denominator both
evaluating to `0`, the result is exactly `100.00`. -/
theorem percent_evaluation_witness :
    evaluate [("a", PyVal.int 0), ("b", PyVal.int 0)]
      (percentExpr (J.jObj [("value", J.jObj [("name", J.jStr "a")])])
        (J.jObj [("value", J.jObj [("name", J.jStr "b")])])) =
      .ok (.float 100) := by
  have h := percent_evaluation [("a", PyVal.int 0), ("b", PyVal.int 0)]
    (J.jObj [("value", J.jObj [("name", J.jStr "a")])])
    (J.jObj [("value", J.jObj [("name", J.jStr "b")])])
    (.int 0) (.int 0) 0 0 rfl rfl (by norm_num [pyQ_int]) (by norm_num [pyQ_int])
  exact h.1 ⟨rfl, rfl⟩

/-- Witness for `divide_evaluation`: `7` divided by the literal `2`
evaluates to the exact quotient `7 / 2`. -/
theorem divide_evaluation_witness :
    evaluate [("x", PyVal.int 7)]
      (.jObj [("divide", .jObj [("value", J.jObj [("name", J.jStr "x")]),
        ("by", J.jInt 2)])]) =
      .ok (.float ((7 : ℚ) / 2)) := by
  have h := (divide_evaluation [("x", PyVal.int 7)]).1 "value"
    (J.jObj [("name", J.jStr "x")])
    [("value", J.jObj [("name", J.jStr "x")]), ("by", J.jInt 2)]
    2 (.int 7) 7 (by decide) (Or.inl rfl) (by decide) rfl
    (by norm_num [pyQ_int])
  rw [h]
  norm_num

/-- Witness for `round_evaluation`: rounding `1.577` to two decimals yields
`1.57` (truncation by `floor`, not rounding to nearest). -/
theorem round_evaluation_witness :
    evaluate [("x", PyVal.float (1577 / 1000))]
      (.jObj [("round", .jObj [("value", J.jObj [("name", J.jStr "x")]),
        ("decimal", J.jInt 2)])]) =
      .ok (.float (157 / 100)) := by
  have h := round_evaluation [("x", PyVal.float (1577 / 1000))] "value"
    (J.jObj [("name", J.jStr "x")]) 2 (.float (1577 / 1000)) (1577 / 1000)
    (by decide) _ (Or.inl rfl) rfl rfl
  rw [h]
  norm_num

/-- A `readable` expression over the named statistic. -/
def readableExpr (nm : String) : J :=
  .jObj [("readable", .jObj [("value", .jObj [("name", .jStr nm)])])]

/-- C8: `evaluate_readable` prints an integer count below `1000` bare and
otherwise scales it by `k` / `M` / `G` with one decimal place; in particular
`999 ↦ "999"`, `1500 ↦ "1.5 k"` and `2500000 ↦ "2.5 M"`. -/
theorem readable_evaluation :
    (∀ (stats : List (String × PyVal)) (nm : String) (n : ℤ),
      alookup nm stats = some (.int n) →
      (n < 1000 →
        evaluate stats (readableExpr nm) = .ok (.str (toString n))) ∧
      (1000 ≤ n → n < 1000000 →
        evaluate stats (readableExpr nm) =
          .ok (.str (fmtOneDec ((n : ℚ) / 1000) ++ " k"))) ∧
      (1000000 ≤ n → n < 1000000000 →
        evaluate stats (readableExpr nm) =
          .ok (.str (fmtOneDec ((n : ℚ) / 1000000) ++ " M"))) ∧
      (1000000000 ≤ n →
        evaluate stats (readableExpr nm) =
          .ok (.str (fmtOneDec ((n : ℚ) / 1000000000) ++ " G")))) ∧
    evaluate [("n", PyVal.int 999)] (readableExpr "n") = .ok (.str "999") ∧
    evaluate [("n", PyVal.int 1500)] (readableExpr "n") = .ok (.str "1.5 k") ∧
    evaluate [("n", PyVal.int 2500000)] (readableExpr "n") =
      .ok (.str "2.5 M") := by
  have base : ∀ (stats : List (String × PyVal)) (nm : String) (n : ℤ),
      alookup nm stats = some (.int n) →
      evaluate stats (readableExpr nm) =
        (if (n : ℚ) < 1000 then .ok (.str (toString n))
         else if 1000000000 ≤ (n : ℚ) then
           .ok (.str (fmtOneDec ((n : ℚ) / 1000000000) ++ " G"))
         else if 1000000 ≤ (n : ℚ) then
           .ok (.str (fmtOneDec ((n : ℚ) / 1000000) ++ " M"))
         else .ok (.str (fmtOneDec ((n : ℚ) / 1000) ++ " k"))) := by
    intro stats nm n h
    have h0 : readableExpr nm =
        J.jObj [("readable", J.jObj [("value", J.jObj [("name", J.jStr nm)])])] := rfl
    rw [h0, evaluate_readableExpr]
    simp only [evaluate_readable, evaluate_value, alookup, h, pyQ, fmtPy,
      String.reduceEq, reduceIte]
  refine ⟨?_, ?_, ?_, ?_⟩
  · intro stats nm n h
    have hb := base stats nm n h
    refine ⟨?_, ?_, ?_, ?_⟩
    · intro h1
      rw [hb, if_pos (by exact_mod_cast h1)]
    · intro h1 h2
      have c1 : ¬((n : ℚ) < 1000) := not_lt.2 (by exact_mod_cast h1)
      have c2 : ¬((1000000000 : ℚ) ≤ (n : ℚ)) :=
        not_le.2 (by exact_mod_cast (show n < 1000000000 by omega))
      have c3 : ¬((1000000 : ℚ) ≤ (n : ℚ)) := not_le.2 (by exact_mod_cast h2)
      rw [hb, if_neg c1, if_neg c2, if_neg c3]
    · intro h1 h2
      have c1 : ¬((n : ℚ) < 1000) :=
        not_lt.2 (by exact_mod_cast (show (1000 : ℤ) ≤ n by omega))
      have c2 : ¬((1000000000 : ℚ) ≤ (n : ℚ)) := not_le.2 (by exact_mod_cast h2)
      rw [hb, if_neg c1, if_neg c2, if_pos (by exact_mod_cast h1)]
    · intro h1
      have c1 : ¬((n : ℚ) < 1000) :=
        not_lt.2 (by exact_mod_cast (show (1000 : ℤ) ≤ n by omega))
      rw [hb, if_neg c1, if_pos (by exact_mod_cast h1)]
  · rfl
  · have e2 : evaluate [("n", PyVal.int 1500)] (readableExpr "n") =
        .ok (.str (fmtOneDec (((1500 : ℤ) : ℚ) / 1000) ++ " k")) := rfl
    have f2 : fmtOneDec (((1500 : ℤ) : ℚ) / 1000) = "1.5" := by
      have h : roundHalfEven (((1500 : ℤ) : ℚ) / 1000 * 10) = 15 := by
        norm_num [roundHalfEven]
      simp only [fmtOneDec]
      rw [h]
      rfl
    rw [e2, f2]
    rfl
  · have e3 : evaluate [("n", PyVal.int 2500000)] (readableExpr "n") =
        .ok (.str (fmtOneDec (((2500000 : ℤ) : ℚ) / 1000000) ++ " M")) := rfl
    have f3 : fmtOneDec (((2500000 : ℤ) : ℚ) / 1000000) = "2.5" := by
      have h : roundHalfEven (((2500000 : ℤ) : ℚ) / 1000000 * 10) = 25 := by
        norm_num [roundHalfEven]
      simp only [fmtOneDec]
      rw [h]
      rfl
    rw [e3, f3]
    rfl

/-- Witness for `readable_evaluation`, instantiating the quantified part at
a concrete statistics mapping. -/
theorem readable_evaluation_witness :
    evaluate [("x", PyVal.int 50)] (readableExpr "x") = .ok (.str "50") := by
  have h := (readable_evaluation.1 [("x", PyVal.int 50)] "x" 50 rfl).1
    (by decide)
  exact h

/-! ### Result merging (`merge_prog_results` / `merge_results`) -/

/-- Replace the first binding of `k` (or append one), the model of Python
`d[k] = v` on a dictionary. -/
def setA {α : Type} (l : List (String × α)) (k : String) (v : α) :
    List (String × α) :=
  match l with
  | [] => [(k, v)]
  | (k', v') :: r => if k' = k then (k, v) :: r else (k', v') :: setA r k v

/-- `merge_prog_results` of `make_table.py`: add each program's results from
`others`, raising on a program already present. -/
def merge_prog_results {α : Type} (results : List (String × α)) :
    List (String × α) → Except String (List (String × α))
  | [] => .ok results
  | (prog, v) :: rest =>
    if (alookup prog results).isSome then
      .error ("try to mix results for the same program " ++ prog)
    else merge_prog_results (results ++ [(prog, v)]) rest

/-- A benchmark result file: a name and, per test case, per-program data. -/
structure BResults (α : Type) where
  name : String
  stats : List (String × List (String × α))

/-- The `for testcase in others_stats` loop of `merge_results`. -/
def mergeStats {α : Type} (rs : List (String × List (String × α))) :
    List (String × List (String × α)) →
      Except String (List (String × List (String × α)))
  | [] => .ok rs
  | (tc, progs) :: rest =>
    match alookup tc rs with
    | none => mergeStats (rs ++ [(tc, progs)]) rest
    | some cur =>
      match merge_prog_results cur progs with
      | .error e =>
        .error ("while merging results for test-case " ++ tc ++ ": " ++ e)
      | .ok merged => mergeStats (setA rs tc merged) rest

/-- `merge_results` of `make_table.py` (the name comparison only prints a
warning and does not affect the result). -/
def merge_results {α : Type} (results others : BResults α) :
    Except String (BResults α) :=
  match mergeStats results.stats others.stats with
  | .error e => .error e
  | .ok st => .ok ⟨results.name, st⟩

theorem alookup_append_of_some {α : Type} {l : List (String × α)} {k : String}
    {v : α} (l2 : List (String × α)) (h : alookup k l = some v) :
    alookup k (l ++ l2) = some v := by
  induction l with
  | nil => simp [alookup] at h
  | cons hd tl ih =>
    obtain ⟨k', w⟩ := hd
    by_cases hk : k' = k
    · simp_all [alookup]
    · simp_all [alookup]

theorem alookup_append_of_none {α : Type} {l : List (String × α)} {k : String}
    (l2 : List (String × α)) (h : alookup k l = none) :
    alookup k (l ++ l2) = alookup k l2 := by
  induction l with
  | nil => simp [alookup]
  | cons hd tl ih =>
    obtain ⟨k', w⟩ := hd
    by_cases hk : k' = k
    · simp_all [alookup]
    · simp_all [alookup]

theorem alookup_setA_ne {α : Type} {l : List (String × α)} {k k' : String}
    (v : α) (h : k' ≠ k) : alookup k (setA l k' v) = alookup k l := by
  induction l with
  | nil => simp [setA, alookup, if_neg h]
  | cons hd tl ih =>
    obtain ⟨k0, w⟩ := hd
    by_cases h0 : k0 = k'
    · subst h0
      simp [setA, alookup, if_neg h, ih]
    · simp only [setA, if_neg h0]
      by_cases h1 : k0 = k
      · simp [alookup, if_pos h1]
      · simp [alookup, if_neg h1, ih]

theorem alookup_none_of_not_mem_keys {α : Type} {l : List (String × α)}
    {k : String} (h : k ∉ l.map Prod.fst) : alookup k l = none := by
  induction l with
  | nil => rfl
  | cons hd tl ih =>
    obtain ⟨k', w⟩ := hd
    simp only [List.map_cons, List.mem_cons] at h
    push_neg at h
    have hne : ¬(k' = k) := fun hh => h.1 hh.symm
    simp [alookup, hne, ih h.2]

theorem merge_prog_results_error {α : Type} {others : List (String × α)}
    {p : String} {y : α} :
    ∀ (rs : List (String × α)), (alookup p rs).isSome →
    alookup p others = some y →
    ∃ e, merge_prog_results rs others = .error e := by
  induction others with
  | nil => intro rs h1 h2; simp [alookup] at h2
  | cons hd rest ih =>
    intro rs h1 h2
    obtain ⟨p0, v0⟩ := hd
    by_cases hcur : (alookup p0 rs).isSome
    · exact ⟨"try to mix results for the same program " ++ p0,
        by simp [merge_prog_results, hcur]⟩
    · have hne : p0 ≠ p := by
        intro hp
        subst hp
        exact hcur h1
      simp only [alookup, if_neg hne] at h2
      have h1' : (alookup p (rs ++ [(p0, v0)])).isSome := by
        obtain ⟨w, hw⟩ := Option.isSome_iff_exists.1 h1
        rw [alookup_append_of_some _ hw]
        rfl
      obtain ⟨e, he⟩ := ih (rs ++ [(p0, v0)]) h1' h2
      refine ⟨e, ?_⟩
      simp only [merge_prog_results, hcur]
      simp only [Bool.false_eq_true, if_false, he]

theorem mergeStats_cons {α : Type} (rs : List (String × List (String × α)))
    (tc : String) (progs : List (String × α))
    (rest : List (String × List (String × α))) :
    mergeStats rs ((tc, progs) :: rest) =
      (match alookup tc rs with
       | none => mergeStats (rs ++ [(tc, progs)]) rest
       | some cur =>
         match merge_prog_results cur progs with
         | .error e =>
           .error ("while merging results for test-case " ++ tc ++ ": " ++ e)
         | .ok merged => mergeStats (setA rs tc merged) rest) := rfl

theorem mergeStats_error {α : Type} {os : List (String × List (String × α))}
    {tc : String} {pr po : List (String × α)} {p : String} {x y : α} :
    ∀ (rs : List (String × List (String × α))),
    alookup tc rs = some pr → alookup tc os = some po →
    alookup p pr = some x → alookup p po = some y →
    ∃ e, mergeStats rs os = .error e := by
  induction os with
  | nil => intro rs h1 h2 h3 h4; simp [alookup] at h2
  | cons hd rest ih =>
    intro rs h1 h2 h3 h4
    obtain ⟨tc0, q0⟩ := hd
    by_cases he : tc0 = tc
    · subst he
      simp [alookup] at h2
      obtain ⟨e, hee⟩ := merge_prog_results_error pr (by rw [h3]; rfl)
        (show alookup p q0 = some y by rw [h2]; exact h4)
      refine ⟨"while merging results for test-case " ++ tc0 ++ ": " ++ e, ?_⟩
      simp only [mergeStats_cons, h1, hee]
    · simp only [alookup, if_neg he] at h2
      cases hcur : alookup tc0 rs with
      | none =>
        obtain ⟨e, hee⟩ :=
          ih (rs ++ [(tc0, q0)]) (alookup_append_of_some _ h1) h2 h3 h4
        exact ⟨e, by simp only [mergeStats_cons, hcur, hee]⟩
      | some cur =>
        cases hm : merge_prog_results cur q0 with
        | error e =>
          exact ⟨"while merging results for test-case " ++ tc0 ++ ": " ++ e,
            by simp only [mergeStats_cons, hcur, hm]⟩
        | ok merged =>
          have h1' : alookup tc (setA rs tc0 merged) = some pr := by
            rw [alookup_setA_ne _ he, h1]
          obtain ⟨e, hee⟩ := ih (setA rs tc0 merged) h1' h2 h3 h4
          exact ⟨e, by simp only [mergeStats_cons, hcur, hm, hee]⟩

theorem mergeStats_keep_left {α : Type}
    {os : List (String × List (String × α))} {tc : String}
    {pr : List (String × α)} :
    ∀ (rs m : List (String × List (String × α))),
    alookup tc rs = some pr → alookup tc os = none →
    mergeStats rs os = .ok m → alookup tc m = some pr := by
  induction os with
  | nil =>
    intro rs m h1 h2 h3
    simp only [mergeStats, Except.ok.injEq] at h3
    subst h3
    exact h1
  | cons hd rest ih =>
    intro rs m h1 h2 h3
    obtain ⟨tc0, q0⟩ := hd
    have hne : tc0 ≠ tc := by
      intro hp
      subst hp
      simp [alookup] at h2
    simp only [alookup, if_neg hne] at h2
    cases hcur : alookup tc0 rs with
    | none =>
      simp only [mergeStats_cons, hcur] at h3
      exact ih _ m (alookup_append_of_some _ h1) h2 h3
    | some cur =>
      simp only [mergeStats_cons, hcur] at h3
      cases hm : merge_prog_results cur q0 with
      | error e => rw [hm] at h3; cases h3
      | ok merged =>
        rw [hm] at h3
        exact ih _ m (by rw [alookup_setA_ne _ hne, h1]) h2 h3

theorem mergeStats_keep_right {α : Type}
    {os : List (String × List (String × α))} {tc : String}
    {po : List (String × α)} :
    ∀ (rs m : List (String × List (String × α))),
    (os.map Prod.fst).Nodup →
    alookup tc rs = none → alookup tc os = some po →
    mergeStats rs os = .ok m → alookup tc m = some po := by
  induction os with
  | nil => intro rs m hnd h1 h2 h3; simp [alookup] at h2
  | cons hd rest ih =>
    intro rs m hnd h1 h2 h3
    obtain ⟨tc0, q0⟩ := hd
    simp only [List.map_cons, List.nodup_cons] at hnd
    by_cases he : tc0 = tc
    · subst he
      simp [alookup] at h2
      simp only [mergeStats_cons, h1] at h3
      have hrest : alookup tc0 rest = none :=
        alookup_none_of_not_mem_keys hnd.1
      have hnew : alookup tc0 (rs ++ [(tc0, q0)]) = some q0 := by
        rw [alookup_append_of_none _ h1]
        simp [alookup]
      rw [← h2]
      exact mergeStats_keep_left _ m hnew hrest h3
    · simp only [alookup, if_neg he] at h2
      cases hcur : alookup tc0 rs with
      | none =>
        simp only [mergeStats_cons, hcur] at h3
        have h1' : alookup tc (rs ++ [(tc0, q0)]) = none := by
          rw [alookup_append_of_none _ h1]
          simp [alookup, if_neg he]
        exact ih _ m hnd.2 h1' h2 h3
      | some cur =>
        simp only [mergeStats_cons, hcur] at h3
        cases hm : merge_prog_results cur q0 with
        | error e => rw [hm] at h3; cases h3
        | ok merged =>
          rw [hm] at h3
          exact ih _ m hnd.2 (by rw [alookup_setA_ne _ he, h1]) h2 h3

/-- C4: merging raises whenever a test case present in both result sets has
a program present in both of its entries; a test case present in only one
result set is carried to the merge unmodified. -/
theorem merge_results_spec {α : Type} (r o : BResults α) :
    (∀ (tc : String) (pr po : List (String × α)) (p : String) (x y : α),
      alookup tc r.stats = some pr → alookup tc o.stats = some po →
      alookup p pr = some x → alookup p po = some y →
      ∃ e, merge_results r o = .error e) ∧
    (∀ (m : BResults α) (tc : String) (pr : List (String × α)),
      merge_results r o = .ok m →
      alookup tc r.stats = some pr → alookup tc o.stats = none →
      alookup tc m.stats = some pr) ∧
    (∀ (m : BResults α) (tc : String) (po : List (String × α)),
      merge_results r o = .ok m → (o.stats.map Prod.fst).Nodup →
      alookup tc r.stats = none → alookup tc o.stats = some po →
      alookup tc m.stats = some po) := by
  refine ⟨?_, ?_, ?_⟩
  · intro tc pr po p x y h1 h2 h3 h4
    obtain ⟨e, he⟩ := mergeStats_error r.stats h1 h2 h3 h4
    exact ⟨e, by simp [merge_results, he]⟩
  · intro m tc pr hm h1 h2
    unfold merge_results at hm
    cases hs : mergeStats r.stats o.stats with
    | error e => rw [hs] at hm; cases hm
    | ok st =>
      rw [hs] at hm
      cases hm
      exact mergeStats_keep_left _ _ h1 h2 hs
  · intro m tc po hm hnd h1 h2
    unfold merge_results at hm
    cases hs : mergeStats r.stats o.stats with
    | error e => rw [hs] at hm; cases hm
    | ok st =>
      rw [hs] at hm
      cases hm
      exact mergeStats_keep_right _ _ hnd h1 h2 hs

/-- Witness for `merge_results_spec`: a shared test case with a shared
program is a hard error, and a test case only in the second set is copied
unmodified. -/
theorem merge_results_spec_witness :
    (∃ e, merge_results (α := ℕ) ⟨"b", [("t1", [("p", 1)])]⟩
      ⟨"b", [("t1", [("p", 2)])]⟩ = .error e) ∧
    alookup "t2"
      (BResults.stats (α := ℕ) ⟨"b", [("t1", [("p", 1)]), ("t2", [("q", 2)])]⟩) =
      some [("q", 2)] ∧
    alookup "t2"
      (BResults.stats (α := ℕ) ⟨"b", [("t1", [("p", 1)]), ("t2", [("q", 2)])]⟩) =
      some [("q", 2)] := by
  refine ⟨?_, ?_, ?_⟩
  · exact (merge_results_spec (α := ℕ) ⟨"b", [("t1", [("p", 1)])]⟩
      ⟨"b", [("t1", [("p", 2)])]⟩).1 "t1" [("p", 1)] [("p", 2)] "p" 1 2
      rfl rfl rfl rfl
  · exact (merge_results_spec (α := ℕ) ⟨"b", [("t1", [("p", 1)])]⟩
      ⟨"b", [("t2", [("q", 2)])]⟩).2.2
      ⟨"b", [("t1", [("p", 1)]), ("t2", [("q", 2)])]⟩ "t2" [("q", 2)]
      rfl (by simp) rfl rfl
  · exact (merge_results_spec (α := ℕ)
      ⟨"b", [("t1", [("p", 1)]), ("t2", [("q", 2)])]⟩
      ⟨"b", [("t3", [("q", 2)])]⟩).2.1
      ⟨"b", [("t1", [("p", 1)]), ("t2", [("q", 2)]), ("t3", [("q", 2)])]⟩
      "t2" [("q", 2)] rfl rfl rfl

end MakeTable

namespace RunBench

open MakeTable (alookup)

/-!
### `run_benchmarks.py`

`extract_stats` filters a program's raw statistics by the expected keys,
and `run_benchmark` drives the per-model configuration loop with the
skip-on-timeout policy.  The external `run_program` call is abstracted by an
oracle `runStatus : config → program → status` giving the raw status
(`"success"`, `"error"` or `"timeout"`) that running the program on the
model built for that configuration would report.
-/

/-- `extract_stats` of `run_benchmarks.py`.  Returns the extracted stats
dictionary together with the list of expected keys that were warned about;
`none` models the `KeyError` when the input has no `"status"` key. -/
def extract_stats (tchecker_stats : List (String × String))
    (expected_keys : List String) :
    Option (List (String × String) × List String) :=
  match alookup "status" tchecker_stats with
  | none => none
  | some st =>
    if st = "success" then
      some (expected_keys.foldl
        (fun (acc : List (String × String) × List String) key =>
          match alookup key tchecker_stats with
          | none => (acc.1, acc.2 ++ [key])
          | some v => (acc.1 ++ [(key, v)], acc.2))
        ([("status", st)], []))
    else some ([("status", st)], [])

theorem extract_stats_foldl (tstats : List (String × String)) :
    ∀ (expected : List String) (acc : List (String × String) × List String),
    expected.foldl
      (fun (acc : List (String × String) × List String) key =>
        match alookup key tstats with
        | none => (acc.1, acc.2 ++ [key])
        | some v => (acc.1 ++ [(key, v)], acc.2)) acc =
      (acc.1 ++ expected.filterMap
          (fun k => (alookup k tstats).map (fun v => (k, v))),
        acc.2 ++ expected.filter (fun k => (alookup k tstats).isNone)) := by
  intro expected
  induction expected with
  | nil => intro acc; simp
  | cons k rest ih =>
    intro acc
    simp only [List.foldl_cons, List.filterMap_cons, List.filter_cons]
    cases hk : alookup k tstats with
    | none => simp [ih, hk]
    | some v => simp [ih, hk]

theorem alookup_filterMap (tstats : List (String × String)) (k : String) :
    ∀ (expected : List String),
    alookup k (expected.filterMap
        (fun k' => (alookup k' tstats).map (fun v => (k', v)))) =
      (if k ∈ expected then alookup k tstats else none) := by
  intro expected
  induction expected with
  | nil => simp [alookup]
  | cons k0 rest ih =>
    by_cases he : k0 = k
    · subst he
      cases hk : alookup k0 tstats with
      | none => simp [List.filterMap_cons, hk, ih]
      | some v => simp [List.filterMap_cons, hk, alookup]
    · cases hk : alookup k0 tstats with
      | none => simp [List.filterMap_cons, hk, ih, Ne.symm he]
      | some v => simp [List.filterMap_cons, hk, alookup, he, ih, Ne.symm he]

/-- C10: `extract_stats` keeps the input's status; on a non-`"success"`
status the result is exactly the singleton `{"status": st}` with no
warnings; on `"success"` the result additionally holds exactly the expected
keys that are present in the input, with their input values, and the
missing expected keys are exactly the warned ones. -/
theorem extract_stats_spec (tstats : List (String × String))
    (expected : List String) (st : String)
    (R : List (String × String)) (W : List String)
    (hst : alookup "status" tstats = some st)
    (hex : extract_stats tstats expected = some (R, W)) :
    alookup "status" R = some st ∧
    (st ≠ "success" → R = [("status", st)] ∧ W = []) ∧
    (st = "success" →
      (∀ k, k ≠ "status" →
        alookup k R = (if k ∈ expected then alookup k tstats else none)) ∧
      W = expected.filter (fun k => (alookup k tstats).isNone)) := by
  unfold extract_stats at hex
  simp only [hst] at hex
  by_cases hsu : st = "success"
  · rw [if_pos hsu, extract_stats_foldl] at hex
    simp only [Option.some.injEq, Prod.mk.injEq, List.nil_append] at hex
    obtain ⟨hR, hW⟩ := hex
    refine ⟨?_, fun h => absurd hsu h, fun _ => ⟨?_, ?_⟩⟩
    · rw [← hR]
      simp [alookup]
    · intro k hk
      rw [← hR]
      show alookup k (("status", st) :: List.filterMap
        (fun k' => Option.map (fun v => (k', v)) (alookup k' tstats))
          expected) =
        (if k ∈ expected then alookup k tstats else none)
      rw [alookup, if_neg (fun h => hk h.symm), alookup_filterMap]
    · rw [← hW]
  · rw [if_neg hsu] at hex
    simp only [Option.some.injEq, Prod.mk.injEq] at hex
    refine ⟨?_, fun _ => ⟨hex.1.symm, hex.2.symm⟩, fun h => absurd h hsu⟩
    rw [← hex.1]
    simp [alookup]

/-- Witness for `extract_stats_spec` at a concrete run. -/
theorem extract_stats_spec_witness :
    extract_stats [("status", "success"), ("visited", "12")]
      ["visited", "depth"] =
      some ([("status", "success"), ("visited", "12")], ["depth"]) ∧
    alookup "visited" [("status", "success"), ("visited", "12")] =
      (if "visited" ∈ ["visited", "depth"] then
        alookup "visited" [("status", "success"), ("visited", "12")]
      else none) := by
  refine ⟨rfl, ?_⟩
  exact ((extract_stats_spec [("status", "success"), ("visited", "12")]
    ["visited", "depth"] "success" [("status", "success"), ("visited", "12")]
    ["depth"] rfl rfl).2.2 rfl).1 "visited" (by decide)

/-- `itertools.product(*matrix)` in iteration order: the leftmost row varies
slowest. -/
def listProd : List (List String) → List (List String)
  | [] => [[]]
  | xs :: rest => xs.flatMap (fun x => (listProd rest).map (fun c => x :: c))

/-- A model description inside a benchmark: its argument matrix and the
optional `reset_skip` column (already validated by `reset_skip_column`). -/
structure BenchModel where
  matrix : List (List String)
  resetSkip : Option Nat

/-- The `for program_name in selected_programs` loop of `run_benchmark` on
one configuration: thread the skip dictionary, record each program's
status.  `rs p` is the raw status that `run_program` reports for program
`p` on this configuration's model. -/
def setSkip (skip : String → Bool) (p : String) : String → Bool :=
  fun q => if q = p then true else skip q

def stepProgs (skip_on_timeout : Bool) (rs : String → String) :
    (String → Bool) → List String → (String → Bool) × List (String × String)
  | skip, [] => (skip, [])
  | skip, p :: rest =>
    let st := if skip_on_timeout && skip p then "skipped" else rs p
    let skip' := if st = "timeout" then setSkip skip p else skip
    let z := stepProgs skip_on_timeout rs skip' rest
    (z.1, (p, st) :: z.2)

theorem setSkip_self (skip : String → Bool) (p : String) :
    setSkip skip p p = true := by
  simp [setSkip]

theorem setSkip_ne {x p : String} (skip : String → Bool) (h : ¬(x = p)) :
    setSkip skip p x = skip x := by
  simp [setSkip, if_neg h]

/-- `reset_skip_col is not None and config[reset_skip_col] !=
last_reset_skip_value` (the initial `last_reset_skip_value = 0` is an `int`,
different from every string, modelled by `none`). -/
def doReset (rcol : Option Nat) (lastR : Option String)
    (c : List String) : Bool :=
  match rcol with
  | none => false
  | some r => decide (some (c.getD r "") ≠ lastR)

/-- `last_reset_skip_value = config[reset_skip_col] if reset_skip_col is not
None else last_reset_skip_value`. -/
def nextLastR (rcol : Option Nat) (lastR : Option String)
    (c : List String) : Option String :=
  match rcol with
  | none => lastR
  | some r => some (c.getD r "")

/-- The `for config in itertools.product(*model["matrix"])` loop of
`run_benchmark`, returning the recorded per-program statuses of each
configuration in order. -/
def runConfigs (skip_on_timeout : Bool) (progs : List String)
    (runStatus : List String → String → String) (rcol : Option Nat) :
    (String → Bool) → Option String → List (List String) →
      List (List (String × String))
  | _, _, [] => []
  | skip, lastR, c :: rest =>
    let skip0 := if doReset rcol lastR c then (fun _ => false) else skip
    let z := stepProgs skip_on_timeout (runStatus c) skip0 progs
    z.2 :: runConfigs skip_on_timeout progs runStatus rcol z.1
      (nextLastR rcol lastR c) rest

/-- The per-model part of `run_benchmark` (the skip dictionary starts all
`False` and `last_reset_skip_value` at its arbitrary non-string initial
value). -/
def run_benchmark_model (skip_on_timeout : Bool) (progs : List String)
    (runStatus : List String → String → String) (m : BenchModel) :
    List (List (String × String)) :=
  runConfigs skip_on_timeout progs runStatus m.resetSkip (fun _ => false)
    none (listProd m.matrix)

theorem stepProgs_skip_of_not_mem (sot : Bool) (rs : String → String)
    (p : String) : ∀ (l : List String) (skip : String → Bool), p ∉ l →
    (stepProgs sot rs skip l).1 p = skip p := by
  intro l
  induction l with
  | nil => intro skip h; rfl
  | cons q rest ih =>
    intro skip h
    simp only [List.mem_cons] at h
    push_neg at h
    show (stepProgs sot rs _ rest).1 p = skip p
    rw [ih _ h.2]
    by_cases ht : (if sot && skip q then "skipped" else rs q) = "timeout"
    · rw [if_pos ht, setSkip_ne skip h.1]
    · rw [if_neg ht]

theorem stepProgs_lookup (sot : Bool) (rs : String → String) (p : String) :
    ∀ (l : List String) (skip : String → Bool), l.Nodup → p ∈ l →
    alookup p (stepProgs sot rs skip l).2 =
      some (if sot && skip p then "skipped" else rs p) := by
  intro l
  induction l with
  | nil => intro skip hnd h; cases h
  | cons q rest ih =>
    intro skip hnd hm
    simp only [List.nodup_cons] at hnd
    by_cases hp : q = p
    · subst hp
      show alookup q ((q, _) :: _) = _
      rw [alookup, if_pos rfl]
    · have hm' : p ∈ rest := by
        rcases List.mem_cons.1 hm with h | h
        · exact absurd h.symm hp
        · exact h
      show alookup p ((q, _) :: _) = _
      rw [alookup, if_neg hp, ih _ hnd.2 hm']
      by_cases ht : (if sot && skip q then "skipped" else rs q) = "timeout"
      · rw [if_pos ht, setSkip_ne skip (fun h : p = q => hp h.symm)]
      · rw [if_neg ht]

theorem stepProgs_skip_mem (sot : Bool) (rs : String → String) (p : String) :
    ∀ (l : List String) (skip : String → Bool), l.Nodup → p ∈ l →
    (stepProgs sot rs skip l).1 p =
      (skip p ||
        decide ((if sot && skip p then "skipped" else rs p) = "timeout")) := by
  intro l
  induction l with
  | nil => intro skip hnd h; cases h
  | cons q rest ih =>
    intro skip hnd hm
    simp only [List.nodup_cons] at hnd
    by_cases hp : q = p
    · subst hp
      show (stepProgs sot rs _ rest).1 q = _
      rw [stepProgs_skip_of_not_mem sot rs q rest _ hnd.1]
      by_cases ht : (if sot && skip q then "skipped" else rs q) = "timeout"
      · rw [if_pos ht, setSkip_self, decide_eq_true ht, Bool.or_true]
      · rw [if_neg ht, decide_eq_false ht, Bool.or_false]
    · have hm' : p ∈ rest := by
        rcases List.mem_cons.1 hm with h | h
        · exact absurd h.symm hp
        · exact h
      show (stepProgs sot rs _ rest).1 p = _
      rw [ih _ hnd.2 hm']
      by_cases ht : (if sot && skip q then "skipped" else rs q) = "timeout"
      · rw [if_pos ht, setSkip_ne skip (fun h : p = q => hp h.symm)]
      · rw [if_neg ht]

theorem runConfigs_cons (sot : Bool) (progs : List String)
    (runStatus : List String → String → String) (rcol : Option Nat)
    (skip : String → Bool) (lastR : Option String) (c : List String)
    (rest : List (List String)) :
    runConfigs sot progs runStatus rcol skip lastR (c :: rest) =
      (stepProgs sot (runStatus c)
          (if doReset rcol lastR c then (fun _ => false) else skip) progs).2 ::
        runConfigs sot progs runStatus rcol
          (stepProgs sot (runStatus c)
            (if doReset rcol lastR c then (fun _ => false) else skip)
            progs).1
          (nextLastR rcol lastR c) rest := rfl

/-- Once the skip flag of `prog` is set, every configuration whose reset
column keeps the current value records `"skipped"` for `prog`. -/
theorem runConfigs_skipped (progs : List String)
    (rs : List String → String → String) (r : Nat) (prog : String)
    (hnd : progs.Nodup) (hmem : prog ∈ progs) :
    ∀ (cs : List (List String)) (skip : String → Bool) (v0 : String)
      (j : Nat) (row : List (String × String)),
    skip prog = true →
    (∀ (k : Nat) (ck : List String), k ≤ j → cs[k]? = some ck →
      ck.getD r "" = v0) →
    (runConfigs true progs rs (some r) skip (some v0) cs)[j]? = some row →
    alookup prog row = some "skipped" := by
  intro cs
  induction cs with
  | nil => intro skip v0 j row hskip hsame hrow; cases hrow
  | cons c rest ih =>
    intro skip v0 j row hskip hsame hrow
    have h0 : c.getD r "" = v0 := hsame 0 c (Nat.zero_le j) (by simp)
    have hres : doReset (some r) (some v0) c = false := by
      simp only [doReset]
      rw [h0]
      simp
    rw [runConfigs_cons, hres, if_neg (by simp)] at hrow
    have hskip1 :
        (stepProgs true (rs c) skip progs).1 prog = true := by
      rw [stepProgs_skip_mem true (rs c) prog progs skip hnd hmem, hskip]
      rfl
    have hlast : nextLastR (some r) (some v0) c = some v0 := by
      simp only [nextLastR]
      rw [h0]
    cases j with
    | zero =>
      simp only [List.getElem?_cons_zero, Option.some.injEq] at hrow
      subst hrow
      rw [stepProgs_lookup true (rs c) prog progs skip hnd hmem, hskip]
      rfl
    | succ j' =>
      simp only [List.getElem?_cons_succ] at hrow
      rw [hlast] at hrow
      exact ih _ v0 j' row hskip1
        (fun k ck hk hck => hsame (k + 1) ck (by omega)
          (by simpa using hck)) hrow

/-- After the reset column changes between two consecutive configurations,
the skip state is cleared: every program runs again and its raw status is
recorded. -/
theorem runConfigs_reset_rerun (sot : Bool) (progs : List String)
    (rs : List String → String → String) (r : Nat) (hnd : progs.Nodup) :
    ∀ (cs : List (List String)) (skip : String → Bool) (lastR : Option String)
      (k : Nat) (ck ck1 : List String) (row : List (String × String))
      (p : String),
    cs[k]? = some ck → cs[k + 1]? = some ck1 →
    ck1.getD r "" ≠ ck.getD r "" →
    (runConfigs sot progs rs (some r) skip lastR cs)[k + 1]? = some row →
    p ∈ progs →
    alookup p row = some (rs ck1 p) := by
  intro cs
  induction cs with
  | nil => intro skip lastR k ck ck1 row p h1 h2 hne hrow hp; cases h1
  | cons c rest ih =>
    intro skip lastR k ck ck1 row p h1 h2 hne hrow hp
    cases k with
    | zero =>
      simp only [List.getElem?_cons_zero, Option.some.injEq] at h1
      subst h1
      simp only [List.getElem?_cons_succ] at h2
      rw [runConfigs_cons] at hrow
      simp only [List.getElem?_cons_succ] at hrow
      obtain ⟨rest2, rfl⟩ : ∃ rest2, rest = ck1 :: rest2 := by
        cases rest with
        | nil => cases h2
        | cons a b =>
          have ha : a = ck1 := by simpa using h2
          exact ⟨b, by rw [ha]⟩
      · rw [runConfigs_cons] at hrow
        have hres : doReset (some r) (nextLastR (some r) lastR c) ck1 = true := by
          simp only [doReset, nextLastR]
          exact decide_eq_true (by simpa using hne)
        rw [hres, if_pos rfl] at hrow
        simp only [List.getElem?_cons_zero, Option.some.injEq] at hrow
        subst hrow
        rw [stepProgs_lookup sot (rs ck1) p progs _ hnd hp]
        simp
    | succ k' =>
      simp only [List.getElem?_cons_succ] at h1 h2
      rw [runConfigs_cons] at hrow
      simp only [List.getElem?_cons_succ] at hrow
      exact ih _ _ k' ck ck1 row p h1 h2 hne hrow hp

/-- Once `prog` records `"timeout"` at configuration `i`, it records
`"skipped"` at every later configuration `j` as long as the reset column
value never changes between consecutive configurations in between. -/
theorem runConfigs_timeout_skip (progs : List String)
    (rs : List String → String → String) (r : Nat) (prog : String)
    (hnd : progs.Nodup) (hmem : prog ∈ progs) :
    ∀ (cs : List (List String)) (skip : String → Bool) (lastR : Option String)
      (i j : Nat) (rowi rowj : List (String × String)),
    i < j →
    (runConfigs true progs rs (some r) skip lastR cs)[i]? = some rowi →
    (runConfigs true progs rs (some r) skip lastR cs)[j]? = some rowj →
    alookup prog rowi = some "timeout" →
    (∀ (k : Nat) (ck ck1 : List String), i ≤ k → k < j →
      cs[k]? = some ck → cs[k + 1]? = some ck1 →
      ck1.getD r "" = ck.getD r "") →
    alookup prog rowj = some "skipped" := by
  intro cs
  induction cs with
  | nil => intro skip lastR i j rowi rowj hij h1 h2 h3 h4; cases h1
  | cons c rest ih =>
    intro skip lastR i j rowi rowj hij h1 h2 h3 h4
    rw [runConfigs_cons] at h1 h2
    cases i with
    | zero =>
      obtain ⟨j', rfl⟩ : ∃ j', j = j' + 1 := ⟨j - 1, by omega⟩
      simp only [List.getElem?_cons_zero, Option.some.injEq] at h1
      subst h1
      simp only [List.getElem?_cons_succ] at h2
      set skip0 := if doReset (some r) lastR c then (fun _ : String => false)
        else skip with hskip0
      rw [stepProgs_lookup true (rs c) prog progs skip0 hnd hmem] at h3
      have hs0 : skip0 prog = false := by
        by_contra hcon
        rw [Bool.not_eq_false] at hcon
        rw [hcon] at h3
        simp at h3
      rw [hs0] at h3
      simp only [Bool.and_false, Bool.false_eq_true, if_false,
        Option.some.injEq] at h3
      have hskip1 : (stepProgs true (rs c) skip0 progs).1 prog = true := by
        rw [stepProgs_skip_mem true (rs c) prog progs skip0 hnd hmem, hs0]
        simp [h3]
      have hchain : ∀ (k : Nat) (ck : List String), k ≤ j' →
          rest[k]? = some ck → ck.getD r "" = c.getD r "" := by
        intro k
        induction k using Nat.strong_induction_on with
        | _ k ihk =>
          intro ck hk hck
          cases k with
          | zero =>
            exact h4 0 c ck (Nat.zero_le 0) (by omega) (by simp)
              (by simpa using hck)
          | succ k' =>
            have hlt : k' + 1 < rest.length := (List.getElem?_eq_some.1 hck).1
            obtain ⟨prev, hprev⟩ : ∃ x, rest[k']? = some x :=
              ⟨_, List.getElem?_eq_getElem (by omega)⟩
            have step : ck.getD r "" = prev.getD r "" :=
              h4 (k' + 1) prev ck (by omega) (by omega)
                (by simp only [List.getElem?_cons_succ]; exact hprev)
                (by simpa using hck)
            have base : prev.getD r "" = c.getD r "" :=
              ihk k' (by omega) prev (by omega) hprev
            rw [step, base]
      have hlast : nextLastR (some r) lastR c = some (c.getD r "") := rfl
      rw [hlast] at h2
      exact runConfigs_skipped progs rs r prog hnd hmem rest _ _ j' rowj
        hskip1 hchain h2
    | succ i' =>
      obtain ⟨j', rfl⟩ : ∃ j', j = j' + 1 := ⟨j - 1, by omega⟩
      simp only [List.getElem?_cons_succ] at h1 h2
      exact ih _ _ i' j' rowi rowj (by omega) h1 h2 h3
        (fun k ck ck1 hk1 hk2 hc1 hc2 =>
          h4 (k + 1) ck ck1 (by omega) (by omega) (by simpa using hc1)
            (by simpa using hc2))

/-- C2 (amended: the policy applies when the benchmark enables
`skip_on_timeout`): once a program records `"timeout"` on a configuration of
a model, every later configuration records `"skipped"` for it until the
designated reset column's value changes between consecutive configurations;
at such a change the skip state is reset for all programs, which run again
and record their raw status. -/
theorem run_benchmark_skip_policy (progs : List String)
    (runStatus : List String → String → String) (m : BenchModel) (r : Nat)
    (prog : String) (hr : m.resetSkip = some r) (hnd : progs.Nodup)
    (hmem : prog ∈ progs) :
    (∀ (i j : Nat) (rowi rowj : List (String × String)),
      i < j →
      (run_benchmark_model true progs runStatus m)[i]? = some rowi →
      (run_benchmark_model true progs runStatus m)[j]? = some rowj →
      alookup prog rowi = some "timeout" →
      (∀ (k : Nat) (ck ck1 : List String), i ≤ k → k < j →
        (listProd m.matrix)[k]? = some ck →
        (listProd m.matrix)[k + 1]? = some ck1 →
        ck1.getD r "" = ck.getD r "") →
      alookup prog rowj = some "skipped") ∧
    (∀ (k : Nat) (ck ck1 : List String) (row : List (String × String))
       (p : String),
      (listProd m.matrix)[k]? = some ck →
      (listProd m.matrix)[k + 1]? = some ck1 →
      ck1.getD r "" ≠ ck.getD r "" →
      (run_benchmark_model true progs runStatus m)[k + 1]? = some row →
      p ∈ progs →
      alookup p row = some (runStatus ck1 p)) := by
  unfold run_benchmark_model
  rw [hr]
  constructor
  · intro i j rowi rowj hij h1 h2 h3 h4
    exact runConfigs_timeout_skip progs runStatus r prog hnd hmem
      (listProd m.matrix) _ _ i j rowi rowj hij h1 h2 h3 h4
  · intro k ck ck1 row p h1 h2 hne hrow hp
    exact runConfigs_reset_rerun true progs runStatus r hnd
      (listProd m.matrix) _ _ k ck ck1 row p h1 h2 hne hrow hp

/-- A run-status oracle for the counterexample: the single program times
out on the first configuration and succeeds on the second. -/
def cexRunStatus : List String → String → String :=
  fun c _ => if c = ["x", "a"] then "timeout" else "success"

/-- The counterexample model: one reset column (index 0, constant value
`"x"`) and one varying column. -/
def cexModel : BenchModel := ⟨[["x"], ["a", "b"]], some 0⟩

/-- C2 counterexample: without the benchmark's `skip_on_timeout` flag,
`run_benchmark` re-runs a program after a timeout even though the reset
column's value did not change, recording `"success"` instead of the
`"skipped"` the claim demands. -/
theorem run_benchmark_skip_counterexample :
    run_benchmark_model false ["p"] cexRunStatus cexModel =
      [[("p", "timeout")], [("p", "success")]] ∧
    (listProd cexModel.matrix = [["x", "a"], ["x", "b"]] ∧
      ["x", "b"].getD 0 "" = ["x", "a"].getD 0 "") ∧
    ("success" : String) ≠ "skipped" := by
  refine ⟨?_, ⟨?_, rfl⟩, by decide⟩
  · rfl
  · rfl

/-- Witness for `run_benchmark_skip_policy`: with `skip_on_timeout`
enabled, the same model records `"skipped"` on the second configuration. -/
theorem run_benchmark_skip_policy_witness :
    run_benchmark_model true ["p"] cexRunStatus cexModel =
      [[("p", "timeout")], [("p", "skipped")]] ∧
    alookup "p" [("p", "skipped")] = some "skipped" := by
  refine ⟨rfl, ?_⟩
  have h := (run_benchmark_skip_policy ["p"] cexRunStatus cexModel 0 "p"
    rfl (by simp) (by simp)).1 0 1 [("p", "timeout")] [("p", "skipped")]
    (by omega) rfl rfl rfl
  apply h
  intro k ck ck1 hk1 hk2 hc1 hc2
  have hk : k = 0 := by omega
  subst hk
  have e1 : ck = ["x", "a"] := by
    have : (listProd cexModel.matrix)[0]? = some ["x", "a"] := rfl
    rw [this] at hc1
    exact (Option.some.injEq .. ▸ hc1).symm
  have e2 : ck1 = ["x", "b"] := by
    have : (listProd cexModel.matrix)[1]? = some ["x", "b"] := rfl
    rw [this] at hc2
    exact (Option.some.injEq .. ▸ hc2).symm
  rw [e1, e2]
  rfl

end RunBench

namespace Dot2Dot

open MakeTable (alookup setA)

/-!
### `dot2dot.py`

An element (node or edge) is its attribute dictionary; an absent attribute
has no binding (pygraphviz reports it as `None`).  A compiled condition
regex is abstracted as its matching predicate `String → Bool`; a value
template (`parse_references` output) is its list of literal segments, with
one attribute reference between two consecutive segments.
-/

/-- A node's or edge's attributes. -/
abbrev Elem := List (String × String)

/-- The namedtuple `Change`: condition list, update list (attribute and
format-string segments), and per-update referenced attribute names. -/
structure DChange where
  cond : Option (List (String × (String → Bool)))
  update : List (String × List String)
  attr_names : List (List String)

/-- Render `format_string % tuple(args)`: literal segments interleaved with
the argument strings. -/
def render : List String → List String → String
  | [], _ => ""
  | [s], _ => s
  | s :: rest, [] => s ++ render rest []
  | s :: rest, a :: args => s ++ a ++ render rest args

/-- `verify_cond` of `dot2dot.py`: `res` starts `True` and is cleared when a
condition's attribute (nonempty name) is absent or its regex does not
match. -/
def verify_cond (elmt : Elem)
    (cond_list : Option (List (String × (String → Bool)))) : Bool :=
  match cond_list with
  | none => true
  | some l =>
    l.foldl
      (fun res c =>
        if c.1 ≠ "" then
          match alookup c.1 elmt with
          | none => false
          | some v => if c.2 v then res else false
        else res)
      true

/-- Python `a in unknown_attributes`: substring test on the accumulated
warning text. -/
def strContains (s pat : String) : Bool :=
  (List.range (s.toList.length + 1)).any
    (fun i => pat.toList.isPrefixOf (s.toList.drop i))

/-- `instantiate_format` of `dot2dot.py`: build the argument list (empty
string for an absent or empty attribute, which is also appended to
`unknown_attributes` unless already a substring of it) and render the
format string. -/
def instantiate_format (elmt : Elem) (format_string : List String)
    (attributes : List String) (unknown_attributes : String) :
    String × String :=
  let z := attributes.foldl
    (fun (acc : List String × String) a =>
      match alookup a elmt with
      | none =>
        (acc.1 ++ [""], if strContains acc.2 a then acc.2 else acc.2 ++ a)
      | some v =>
        if v = "" then
          (acc.1 ++ [""], if strContains acc.2 a then acc.2 else acc.2 ++ a)
        else (acc.1 ++ [v], acc.2))
    ([], unknown_attributes)
  (render format_string z.1, z.2)

/-- `change_values` of `dot2dot.py`: set each attribute in turn. -/
def change_values (elmt : Elem) (to_change : List (String × String)) : Elem :=
  to_change.foldl (fun e kv => setA e kv.1 kv.2) elmt

/-- The per-element body of `apply_changes`: accumulate `to_change` and
`unknown_attributes` over all rules (updates paired with their referenced
attribute names, as the `for i in range(len(update))` loop does). -/
def applyElemChanges (elmt : Elem) (changes : List DChange) :
    List (String × String) × String :=
  changes.foldl
    (fun (acc : List (String × String) × String) change =>
      if verify_cond elmt change.cond then
        (change.update.zip change.attr_names).foldl
          (fun (acc2 : List (String × String) × String) u =>
            let z := instantiate_format elmt u.1.2 u.2 acc2.2
            (acc2.1 ++ [(u.1.1, z.1)], z.2))
          acc
      else acc)
    ([], "")

/-- One element of `apply_changes`: the computed updates are applied by
`change_values` after the rule loop; the second component is the
`unknown_attributes` text of the per-element warning. -/
def applyElem (elmt : Elem) (changes : List DChange) : Elem × String :=
  ((change_values elmt (applyElemChanges elmt changes).1),
    (applyElemChanges elmt changes).2)

/-- `apply_changes` of `dot2dot.py` over a collection of elements. -/
def apply_changes (coll : List Elem) (changes : List DChange) :
    List (Elem × String) :=
  coll.map (fun elmt => applyElem elmt changes)

/-- The argument substituted for each referenced attribute: its value, or
the empty string when it is absent or empty. -/
def argsOf (elmt : Elem) (attributes : List String) : List String :=
  attributes.map
    (fun a =>
      match alookup a elmt with
      | none => ""
      | some v => if v = "" then "" else v)

/-- The updates one matching rule computes from the snapshot `elmt`. -/
def ruleUpdates (elmt : Elem) (change : DChange) : List (String × String) :=
  (change.update.zip change.attr_names).map
    (fun u => (u.1.1, render u.1.2 (argsOf elmt u.2)))

/-- All updates of the pass, computed from the pre-update snapshot only. -/
def computedUpdates (elmt : Elem) (changes : List DChange) :
    List (String × String) :=
  (changes.filter (fun c => verify_cond elmt c.cond)).flatMap
    (ruleUpdates elmt)

theorem instantiate_format_fst (elmt : Elem) (format_string : List String) :
    ∀ (attributes : List String) (u : String),
    (instantiate_format elmt format_string attributes u).1 =
      render format_string (argsOf elmt attributes) := by
  have aux : ∀ (attributes : List String) (acc1 : List String) (u : String),
      (attributes.foldl
        (fun (acc : List String × String) a =>
          match alookup a elmt with
          | none =>
            (acc.1 ++ [""],
              if strContains acc.2 a then acc.2 else acc.2 ++ a)
          | some v =>
            if v = "" then
              (acc.1 ++ [""],
                if strContains acc.2 a then acc.2 else acc.2 ++ a)
            else (acc.1 ++ [v], acc.2))
        (acc1, u)).1 = acc1 ++ argsOf elmt attributes := by
    intro attributes
    induction attributes with
    | nil => intro acc1 u; simp [argsOf]
    | cons a rest ih =>
      intro acc1 u
      simp only [List.foldl_cons]
      cases ha : alookup a elmt with
      | none =>
        dsimp only
        rw [ih]
        simp [argsOf, ha]
      | some v =>
        dsimp only
        by_cases hv : v = ""
        · rw [if_pos hv, ih]
          simp [argsOf, ha, hv]
        · rw [if_neg hv, ih]
          simp [argsOf, ha, hv]
  intro attributes u
  unfold instantiate_format
  dsimp only
  rw [aux attributes [] u]
  rfl

theorem applyElemChanges_fst (elmt : Elem) :
    ∀ (changes : List DChange) (acc : List (String × String) × String),
    (changes.foldl
      (fun (acc : List (String × String) × String) change =>
        if verify_cond elmt change.cond then
          (change.update.zip change.attr_names).foldl
            (fun (acc2 : List (String × String) × String) u =>
              let z := instantiate_format elmt u.1.2 u.2 acc2.2
              (acc2.1 ++ [(u.1.1, z.1)], z.2))
            acc
        else acc)
      acc).1 = acc.1 ++ computedUpdates elmt changes := by
  have inner : ∀ (l : List ((String × List String) × List String))
      (acc2 : List (String × String) × String),
      (l.foldl
        (fun (acc2 : List (String × String) × String) u =>
          let z := instantiate_format elmt u.1.2 u.2 acc2.2
          (acc2.1 ++ [(u.1.1, z.1)], z.2))
        acc2).1 =
        acc2.1 ++ l.map (fun u => (u.1.1, render u.1.2 (argsOf elmt u.2))) := by
    intro l
    induction l with
    | nil => intro acc2; simp
    | cons u rest ih =>
      intro acc2
      simp only [List.foldl_cons, List.map_cons]
      rw [ih]
      simp [instantiate_format_fst]
  intro changes
  induction changes with
  | nil => intro acc; simp [computedUpdates]
  | cons c rest ih =>
    intro acc
    simp only [List.foldl_cons]
    by_cases hc : verify_cond elmt c.cond
    · rw [if_pos hc, ih, inner]
      simp [computedUpdates, ruleUpdates, hc, List.append_assoc]
    · rw [if_neg hc, ih]
      simp [computedUpdates, hc]

/-- C5: the rewriter computes every matching rule's updates (conditions and
templates alike) from the element's attributes as they were before the
pass, and only then applies them together with `change_values`; within one
pass no rule sees another rule's writes on the same element. -/
theorem apply_changes_snapshot (coll : List Elem) (changes : List DChange) :
    apply_changes coll changes = coll.map (fun elmt =>
      (change_values elmt (computedUpdates elmt changes),
        (applyElemChanges elmt changes).2)) := by
  unfold apply_changes
  apply List.map_congr_left
  intro elmt _
  unfold applyElem
  have h := applyElemChanges_fst elmt changes ([], "")
  unfold applyElemChanges
  rw [h]
  rfl

/-- C7: a rule with a condition on an attribute that is absent from the
element does not apply (and contributes no updates and no warning); a rule
with no condition (no list, or only empty attribute names) applies
unconditionally. -/
theorem verify_cond_spec :
    (∀ (elmt : Elem) (cond_list : List (String × (String → Bool)))
       (attr : String) (val : String → Bool),
      (attr, val) ∈ cond_list → attr ≠ "" → alookup attr elmt = none →
      verify_cond elmt (some cond_list) = false) ∧
    (∀ (elmt : Elem) (ch : DChange), verify_cond elmt ch.cond = false →
      applyElemChanges elmt [ch] = ([], "") ∧ applyElem elmt [ch] = (elmt, "")) ∧
    (∀ (elmt : Elem), verify_cond elmt none = true) ∧
    (∀ (elmt : Elem) (cond_list : List (String × (String → Bool))),
      (∀ c ∈ cond_list, c.1 = "") →
      verify_cond elmt (some cond_list) = true) := by
  have absorb : ∀ (elmt : Elem) (l : List (String × (String → Bool))),
      l.foldl
        (fun res c =>
          if c.1 ≠ "" then
            match alookup c.1 elmt with
            | none => false
            | some v => if c.2 v then res else false
          else res)
        false = false := by
    intro elmt l
    induction l with
    | nil => rfl
    | cons c rest ih =>
      simp only [List.foldl_cons]
      by_cases hc : c.1 ≠ ""
      · rw [if_pos hc]
        cases ha : alookup c.1 elmt with
        | none => exact ih
        | some v =>
          by_cases hm : c.2 v
          · simp only [if_pos hm]; exact ih
          · simp only [if_neg hm]; exact ih
      · rw [if_neg hc]; exact ih
  refine ⟨?_, ?_, fun _ => rfl, ?_⟩
  · intro elmt cond_list attr val hmem hne habs
    unfold verify_cond
    induction cond_list with
    | nil => cases hmem
    | cons c rest ih =>
      simp only [List.foldl_cons]
      rcases List.mem_cons.1 hmem with hc | hc
      · subst hc
        rw [if_pos hne, habs]
        exact absorb elmt rest
      · by_cases h1 : c.1 ≠ ""
        · rw [if_pos h1]
          cases ha : alookup c.1 elmt with
          | none => exact absorb elmt rest
          | some v =>
            by_cases hm : c.2 v
            · simp only [if_pos hm]
              exact ih hc
            · simp only [if_neg hm]
              exact absorb elmt rest
        · rw [if_neg h1]
          exact ih hc
  · intro elmt ch hc
    have h1 : applyElemChanges elmt [ch] = ([], "") := by
      unfold applyElemChanges
      simp [hc]
    refine ⟨h1, ?_⟩
    unfold applyElem
    rw [h1]
    rfl
  · intro elmt cond_list hall
    unfold verify_cond
    induction cond_list with
    | nil => rfl
    | cons c rest ih =>
      simp only [List.foldl_cons]
      have hc : c.1 = "" := hall c (List.mem_cons_self c rest)
      rw [if_neg (by simp [hc])]
      exact ih (fun x hx => hall x (List.mem_cons_of_mem c hx))

/-- Witness for `verify_cond_spec`: a condition on the absent attribute
`"color"` leaves the element unmatched. -/
theorem verify_cond_spec_witness :
    verify_cond [] (some [("color", fun _ => true)]) = false :=
  verify_cond_spec.1 [] [("color", fun _ => true)] "color" (fun _ => true)
    (by simp) (by decide) rfl

theorem strContains_append_left (s t pat : String)
    (h : strContains s pat = true) : strContains (s ++ t) pat = true := by
  unfold strContains at h ⊢
  rw [List.any_eq_true] at h ⊢
  obtain ⟨i, hi, hp⟩ := h
  simp only [List.mem_range] at hi
  have htl : (s ++ t).toList = s.toList ++ t.toList := by simp
  refine ⟨i, ?_, ?_⟩
  · simp only [List.mem_range, htl, List.length_append]
    omega
  · rw [htl, List.drop_append_of_le_length (by omega)]
    rw [List.isPrefixOf_iff_prefix] at hp ⊢
    exact hp.trans (List.prefix_append _ _)

theorem strContains_append_self (s pat : String) :
    strContains (s ++ pat) pat = true := by
  unfold strContains
  rw [List.any_eq_true]
  refine ⟨s.toList.length, ?_, ?_⟩
  · simp only [List.mem_range]
    have : (s ++ pat).toList = s.toList ++ pat.toList := by simp
    rw [this, List.length_append]
    omega
  · have : (s ++ pat).toList = s.toList ++ pat.toList := by simp
    rw [this, List.drop_left, List.isPrefixOf_iff_prefix]

theorem instantiate_format_warn_aux (elmt : Elem) (a : String) :
    ∀ (attrs : List String) (acc1 : List String) (u : String),
    (strContains u a = true →
      strContains ((attrs.foldl
        (fun (acc : List String × String) x =>
          match alookup x elmt with
          | none =>
            (acc.1 ++ [""], if strContains acc.2 x then acc.2 else acc.2 ++ x)
          | some v =>
            if v = "" then
              (acc.1 ++ [""], if strContains acc.2 x then acc.2 else acc.2 ++ x)
            else (acc.1 ++ [v], acc.2))
        (acc1, u))).2 a = true) ∧
    (a ∈ attrs → alookup a elmt = none →
      strContains ((attrs.foldl
        (fun (acc : List String × String) x =>
          match alookup x elmt with
          | none =>
            (acc.1 ++ [""], if strContains acc.2 x then acc.2 else acc.2 ++ x)
          | some v =>
            if v = "" then
              (acc.1 ++ [""], if strContains acc.2 x then acc.2 else acc.2 ++ x)
            else (acc.1 ++ [v], acc.2))
        (acc1, u))).2 a = true) := by
  intro attrs
  induction attrs with
  | nil =>
    intro acc1 u
    exact ⟨fun h => h, fun hm => absurd hm (List.not_mem_nil a)⟩
  | cons x rest ih =>
    intro acc1 u
    constructor
    · intro hu
      simp only [List.foldl_cons]
      cases hx : alookup x elmt with
      | none =>
        dsimp only
        by_cases hc : strContains u x
        · rw [if_pos hc]
          exact (ih _ _).1 hu
        · rw [if_neg hc]
          exact (ih _ _).1 (strContains_append_left u x a hu)
      | some v =>
        dsimp only
        by_cases hv : v = ""
        · rw [if_pos hv]
          by_cases hc : strContains u x
          · rw [if_pos hc]
            exact (ih _ _).1 hu
          · rw [if_neg hc]
            exact (ih _ _).1 (strContains_append_left u x a hu)
        · rw [if_neg hv]
          exact (ih _ _).1 hu
    · intro hm hmiss
      simp only [List.foldl_cons]
      rcases List.mem_cons.1 hm with hax | hax
      · subst hax
        rw [hmiss]
        dsimp only
        by_cases hc : strContains u a
        · rw [if_pos hc]
          exact (ih _ _).1 hc
        · rw [if_neg hc]
          exact (ih _ _).1 (strContains_append_self u a)
      · cases hx : alookup x elmt with
        | none =>
          dsimp only
          exact (ih _ _).2 hax hmiss
        | some v =>
          dsimp only
          by_cases hv : v = ""
          · rw [if_pos hv]
            exact (ih _ _).2 hax hmiss
          · rw [if_neg hv]
            exact (ih _ _).2 hax hmiss

theorem instantiate_format_warn_mono (elmt : Elem) (fmt attrs : List String)
    (u a : String) (h : strContains u a = true) :
    strContains (instantiate_format elmt fmt attrs u).2 a = true := by
  unfold instantiate_format
  dsimp only
  exact (instantiate_format_warn_aux elmt a attrs [] u).1 h

theorem instantiate_format_warn_mem (elmt : Elem) (fmt attrs : List String)
    (u a : String) (hm : a ∈ attrs) (hmiss : alookup a elmt = none) :
    strContains (instantiate_format elmt fmt attrs u).2 a = true := by
  unfold instantiate_format
  dsimp only
  exact (instantiate_format_warn_aux elmt a attrs [] u).2 hm hmiss

theorem applyElem_warn_aux (elmt : Elem) (a : String) :
    ∀ (changes : List DChange) (acc : List (String × String) × String),
    (strContains acc.2 a = true →
      strContains (changes.foldl
        (fun (acc : List (String × String) × String) change =>
          if verify_cond elmt change.cond then
            (change.update.zip change.attr_names).foldl
              (fun (acc2 : List (String × String) × String) u =>
                let z := instantiate_format elmt u.1.2 u.2 acc2.2
                (acc2.1 ++ [(u.1.1, z.1)], z.2))
              acc
          else acc)
        acc).2 a = true) ∧
    (∀ c ∈ changes, verify_cond elmt c.cond = true →
      ∀ pr ∈ c.update.zip c.attr_names, a ∈ pr.2 → alookup a elmt = none →
      strContains (changes.foldl
        (fun (acc : List (String × String) × String) change =>
          if verify_cond elmt change.cond then
            (change.update.zip change.attr_names).foldl
              (fun (acc2 : List (String × String) × String) u =>
                let z := instantiate_format elmt u.1.2 u.2 acc2.2
                (acc2.1 ++ [(u.1.1, z.1)], z.2))
              acc
          else acc)
        acc).2 a = true) := by
  have innerMono : ∀ (l : List ((String × List String) × List String))
      (acc2 : List (String × String) × String),
      strContains acc2.2 a = true →
      strContains ((l.foldl
        (fun (acc2 : List (String × String) × String) u =>
          let z := instantiate_format elmt u.1.2 u.2 acc2.2
          (acc2.1 ++ [(u.1.1, z.1)], z.2))
        acc2)).2 a = true := by
    intro l
    induction l with
    | nil => intro acc2 h; exact h
    | cons u rest ih =>
      intro acc2 h
      simp only [List.foldl_cons]
      exact ih _ (instantiate_format_warn_mono elmt u.1.2 u.2 acc2.2 a h)
  have innerMem : ∀ (l : List ((String × List String) × List String))
      (acc2 : List (String × String) × String) (pr : _),
      pr ∈ l → a ∈ pr.2 → alookup a elmt = none →
      strContains ((l.foldl
        (fun (acc2 : List (String × String) × String) u =>
          let z := instantiate_format elmt u.1.2 u.2 acc2.2
          (acc2.1 ++ [(u.1.1, z.1)], z.2))
        acc2)).2 a = true := by
    intro l
    induction l with
    | nil => intro acc2 pr hpr; cases hpr
    | cons u rest ih =>
      intro acc2 pr hpr hmem hmiss
      simp only [List.foldl_cons]
      rcases List.mem_cons.1 hpr with h | h
      · subst h
        exact innerMono rest _
          (instantiate_format_warn_mem elmt pr.1.2 pr.2 acc2.2 a hmem hmiss)
      · exact ih _ pr h hmem hmiss
  intro changes
  induction changes with
  | nil =>
    intro acc
    exact ⟨fun h => h, fun c hc => absurd hc (List.not_mem_nil c)⟩
  | cons c0 rest ih =>
    intro acc
    constructor
    · intro h
      simp only [List.foldl_cons]
      by_cases hv : verify_cond elmt c0.cond
      · rw [if_pos hv]
        exact (ih _).1 (innerMono _ acc h)
      · rw [if_neg hv]
        exact (ih _).1 h
    · intro c hc hvc pr hpr hmem hmiss
      simp only [List.foldl_cons]
      rcases List.mem_cons.1 hc with h | h
      · subst h
        rw [if_pos hvc]
        exact (ih _).1 (innerMem _ acc pr hpr hmem hmiss)
      · by_cases hv : verify_cond elmt c0.cond
        · rw [if_pos hv]
          exact (ih _).2 c h hvc pr hpr hmem hmiss
        · rw [if_neg hv]
          exact (ih _).2 c h hvc pr hpr hmem hmiss

/-- Modelled from the claim's reading of "exactly one warning per missing
attribute per element": the distinct missing referenced attributes of all
matching rules, in first-reference order. -/
def claimedWarnAttrs (elmt : Elem) (changes : List DChange) : List String :=
  ((changes.filter (fun c => verify_cond elmt c.cond)).flatMap
      (fun c => c.attr_names.flatMap (fun l => l))).foldl
    (fun acc a =>
      if alookup a elmt = none ∧ a ∉ acc then acc ++ [a] else acc) []

/-- The rule of the C6 counterexample: two updates whose templates
reference the missing attributes `"ab"` and `"a"`. -/
def cexRule : DChange :=
  ⟨none, [("u", ["", ""]), ("v", ["", ""])], [["ab"], ["a"]]⟩

/-- C6 counterexample: on an element with no attributes, the rewriter
records only `"ab"` in the element's warning — the missing attribute
`"a"`, referenced by the second update, is never recorded because its name
is a substring of the text accumulated so far; the claimed one warning per
missing attribute would list both. -/
theorem instantiate_warning_counterexample :
    (applyElem [] [cexRule]).2 = "ab" ∧
    claimedWarnAttrs [] [cexRule] = ["ab", "a"] ∧
    (applyElem [] [cexRule]).2 ≠ String.join (claimedWarnAttrs [] [cexRule]) := by
  refine ⟨rfl, rfl, by decide⟩

/-- C6 (amended): a template reference to an absent attribute is
substituted by the empty string, and processing continues; the rewriter
emits at most one warning per element, whose text records the missing
(or empty-valued) referenced attributes, each missing referenced attribute
occurring in it as a substring; an attribute is appended only when it is
missing or empty-valued and not already a substring of the accumulated
text. -/
theorem instantiate_missing_attribute (elmt : Elem) :
    (∀ (fmt attrs : List String) (u : String),
      (instantiate_format elmt fmt attrs u).1 =
        render fmt (argsOf elmt attrs)) ∧
    (∀ (changes : List DChange) (c : DChange), c ∈ changes →
      verify_cond elmt c.cond = true →
      ∀ pr ∈ c.update.zip c.attr_names, ∀ a ∈ pr.2,
      alookup a elmt = none →
      strContains (applyElem elmt changes).2 a = true) ∧
    (∀ (fmt attrs : List String) (u : String),
      (instantiate_format elmt fmt attrs u).2 = attrs.foldl
        (fun w a =>
          if (alookup a elmt = none ∨ alookup a elmt = some "") ∧
              strContains w a = false
          then w ++ a else w) u) := by
  refine ⟨fun fmt attrs u => instantiate_format_fst elmt fmt attrs u, ?_, ?_⟩
  · intro changes c hc hvc pr hpr a hmem hmiss
    unfold applyElem applyElemChanges
    exact (applyElem_warn_aux elmt a changes ([], "")).2 c hc hvc pr hpr
      hmem hmiss
  · intro fmt attrs
    have aux : ∀ (attrs : List String) (acc1 : List String) (u : String),
        ((attrs.foldl
          (fun (acc : List String × String) x =>
            match alookup x elmt with
            | none =>
              (acc.1 ++ [""],
                if strContains acc.2 x then acc.2 else acc.2 ++ x)
            | some v =>
              if v = "" then
                (acc.1 ++ [""],
                  if strContains acc.2 x then acc.2 else acc.2 ++ x)
              else (acc.1 ++ [v], acc.2))
          (acc1, u))).2 = attrs.foldl
            (fun w a =>
              if (alookup a elmt = none ∨ alookup a elmt = some "") ∧
                  strContains w a = false
              then w ++ a else w) u := by
      intro attrs
      induction attrs with
      | nil => intro acc1 u; rfl
      | cons x rest ih =>
        intro acc1 u
        simp only [List.foldl_cons]
        cases hx : alookup x elmt with
        | none =>
          dsimp only
          by_cases hc : strContains u x
          · rw [if_pos hc, ih, if_neg (by simp [hc])]
          · rw [if_neg hc, ih, if_pos (by simp [hx, hc])]
        | some v =>
          dsimp only
          by_cases hv : v = ""
          · subst hv
            rw [if_pos rfl]
            by_cases hc : strContains u x
            · rw [if_pos hc, ih, if_neg (by simp [hc])]
            · rw [if_neg hc, ih, if_pos (by simp [hx, hc])]
          · rw [if_neg hv, ih, if_neg (by simp [hx, hv])]
    intro u
    unfold instantiate_format
    dsimp only
    exact aux attrs [] u

/-- Witness for `instantiate_missing_attribute`: on the counterexample
input, the missing referenced attribute `"a"` does occur (as a substring)
in the element's warning text. -/
theorem instantiate_missing_attribute_witness :
    strContains (applyElem [] [cexRule]).2 "a" = true :=
  (instantiate_missing_attribute []).2.1 [cexRule] cexRule (by simp) rfl
    (("v", ["", ""]), ["a"]) (by simp [cexRule]) "a" (by simp) rfl

end Dot2Dot
